import Mathlib

/-!
Verification development for the Google Drive Folder duplicator
(`src/Code.js`).  The script duplicates a Drive folder tree by driving a
FIFO work queue of `{sourceId, destId, stage}` tasks through a
files-then-subfolders staged traversal (`processQueue`), suspending on a
wall-clock budget by capturing iterator continuation tokens into the head
task and persisting `{queue, rowIndex, totalCopied}`, and resuming via a
scheduled trigger.  A side-effect-free verification walker
(`processVerifyQueue`) has the same shape with `checked`/`mismatches`
counters.

The embedding below translates the traversal logic directly: Drive is an
association list of folders; iterators are materialised remaining-item
lists (a continuation token resumes exactly the remaining listing of an
unchanged source); fallible remote calls are driven by explicit failure
oracles (`Env`); the wall-clock guard is a countdown of permitted checks
(`Option Nat`, `none` = never expires), matching "expire after k checks";
the outer `while` loop takes fuel.  Every externally visible action is
recorded as an event (`Ev`) so ordering and logging claims are statements
about the produced trace.
-/

namespace DriveDup

/-- A source folder as the walker sees it through `DriveApp`:
its own name (`getName`), its file names in enumeration order
(`getFiles`), and its subfolders as (id, name) pairs in enumeration
order (`getFolders` with `getId`/`getName`). -/
structure SrcFolder where
  name  : String
  files : List String
  subs  : List (Nat × String)
deriving Repr, DecidableEq

/-- The immutable source side of Drive: folder id to folder. -/
abbrev SrcDrive := List (Nat × SrcFolder)

/-- Model of `DriveApp.getFolderById` on the source side: `none` means the
call throws (folder missing/inaccessible). -/
def lookupSrc (d : SrcDrive) (i : Nat) : Option SrcFolder :=
  (d.find? (fun p => p.1 == i)).map (fun p => p.2)

/-- Source-side closure: every subfolder id listed by a reachable folder
resolves.  (A well-formed unchanged source tree.) -/
def srcClosed (d : SrcDrive) : Bool :=
  d.all (fun p => p.2.subs.all (fun s => (lookupSrc d s.1).isSome))

/-- A destination folder: file names and named subfolders in creation
order. -/
structure DestFolder where
  files : List String
  subs  : List (String × Nat)
deriving Repr, DecidableEq

/-- The mutable destination side of Drive: folders by id plus a fresh-id
counter. -/
structure DestState where
  folders : List (Nat × DestFolder)
  nextId  : Nat
deriving Repr, DecidableEq

/-- Model of `DriveApp.getFolderById` on the destination side. -/
def lookupDest (d : DestState) (i : Nat) : Option DestFolder :=
  (d.folders.find? (fun p => p.1 == i)).map (fun p => p.2)

/-- Model of `destFolder.getFilesByName(name).hasNext()`: does a file of
that name already exist in destination folder `i`. -/
def fileExists (d : DestState) (i : Nat) (n : String) : Bool :=
  match lookupDest d i with
  | some f => f.files.contains n
  | none => false

/-- Model of `destFolder.getFoldersByName(name)` with first match wins:
the id of the first subfolder of `i` named `n`. -/
def findFolderByName (d : DestState) (i : Nat) (n : String) : Option Nat :=
  match lookupDest d i with
  | some f => (f.subs.find? (fun p => p.1 == n)).map (fun p => p.2)
  | none => none

/-- Model of `file.makeCopy(name, destFolder)`: append file `n` to
destination folder `i`. -/
def destAddFile (d : DestState) (i : Nat) (n : String) : DestState :=
  ⟨d.folders.map (fun p => if p.1 == i then (p.1, ⟨p.2.files ++ [n], p.2.subs⟩) else p),
   d.nextId⟩

/-- Model of `destFolder.createFolder(name)`: create a fresh empty folder
named `n` under parent `i`, returning the new state and the new id. -/
def createFolder (d : DestState) (i : Nat) (n : String) : DestState × Nat :=
  (⟨(d.nextId, ⟨[], []⟩) ::
      d.folders.map (fun p => if p.1 == i then (p.1, ⟨p.2.files, p.2.subs ++ [(n, d.nextId)]⟩) else p),
    d.nextId + 1⟩,
   d.nextId)

/-- Model of `DriveApp.getRootFolder().createFolder(name)` in `setupJob`:
register a fresh top-level folder. -/
def createRootFolder (d : DestState) : DestState × Nat :=
  (⟨(d.nextId, ⟨[], []⟩) :: d.folders, d.nextId + 1⟩, d.nextId)

/-- Internal well-formedness of a destination state: every registered id
and every referenced subfolder id is below the fresh-id counter, and
every subfolder reference resolves. -/
def destInv (d : DestState) : Bool :=
  d.folders.all (fun p =>
    p.1 < d.nextId &&
      p.2.subs.all (fun s => s.2 < d.nextId && (lookupDest d s.2).isSome))

/-- Traversal stage of a task, `'FILES'` or `'FOLDERS'` in the source. -/
inductive Stage where
  | FILES
  | FOLDERS
deriving Repr, DecidableEq

/-- A work-queue task `{sourceId, destId, stage, fileToken?, folderToken?}`.
A continuation token is modelled as the materialised remaining listing of
the unchanged source (what `continueFileIterator`/`continueFolderIterator`
would yield). -/
structure Task where
  sourceId : Nat
  destId : Nat
  stage : Stage
  fileToken : Option (List String)
  folderToken : Option (List (Nat × String))
deriving Repr, DecidableEq

/-- Failure oracles for the fallible remote calls, keyed so that each
syntactic call site in `processQueue`/`processVerifyQueue` consults one
field.  `true` means the call throws. -/
structure Env where
  listFilesFail : Nat → Bool
  listFoldersFail : Nat → Bool
  fileCursorStale : Nat → Bool
  folderCursorStale : Nat → Bool
  fileOpFail : Nat → String → Bool
  subOpFail : Nat → Nat → Bool

/-- The fault-free environment. -/
def Env.ok : Env :=
  ⟨fun _ => false, fun _ => false, fun _ => false, fun _ => false,
   fun _ _ => false, fun _ _ => false⟩

/-- Observable events of a walker execution, in program order. -/
inductive Ev where
  | log (sev : String) (subject : String) (msg : String)
  | timeCheck (expired : Bool)
  | fileItem (destId : Nat) (name : String)
  | copiedFile (destId : Nat) (name : String)
  | skippedFile (destId : Nat) (name : String)
  | subItem (parentDest : Nat) (subId : Nat) (name : String)
  | createdFolder (parentDest : Nat) (name : String) (newId : Nat)
  | reusedFolder (parentDest : Nat) (name : String) (id : Nat)
  | enqueued (srcId : Nat) (destId : Nat)
  | stageDone (srcId : Nat)
  | dequeued (srcId : Nat)
  | savedState (queue : List Task) (totalCopied : Nat)
  | savedVState (queue : List Task) (checked : Nat) (mismatches : Nat)
  | scheduledResume
  | statusWrite (s : String)
  | clearedState
  | removedTriggers
deriving Repr, DecidableEq

/-- The wall-clock budget, modelled as the number of time-limit checks
that still pass before `Date.now() - startTime > CONFIG.TIME_LIMIT_MS`
becomes true; `none` never expires. -/
def budgetExpired : Option Nat → Bool
  | some 0 => true
  | _ => false

/-- Advance the budget past one passed check. -/
def budgetTick : Option Nat → Option Nat
  | some (k + 1) => some k
  | b => b

/-- Outcome of the FILES-stage inner loop of `processQueue`. -/
inductive FilesRes where
  | suspended (rest : List String) (copied : Nat) (dest : DestState) (evs : List Ev)
  | completed (copied : Nat) (dest : DestState) (evs : List Ev)
deriving Repr, DecidableEq

/-- Prefix events onto a FILES-stage outcome. -/
def FilesRes.withEvs (e : List Ev) : FilesRes → FilesRes
  | .suspended r c d evs => .suspended r c d (e ++ evs)
  | .completed c d evs => .completed c d (e ++ evs)

/-- Prefix events onto a FILES-stage outcome paired with its budget. -/
def FilesRes.withEvsP (e : List Ev) (p : FilesRes × Option Nat) : FilesRes × Option Nat :=
  (p.1.withEvs e, p.2)

/-- The FILES-stage inner loop (`Code.js` lines 174-210): for each
remaining file, check the time limit, count it as processed, then skip it
if a same-named file exists in the destination, copy it otherwise, and on
a per-file error log and continue. -/
def copyFilesStage (env : Env) (did : Nat) :
    List String → Option Nat → Nat → DestState → FilesRes × Option Nat
  | [], b, copied, dest => (.completed copied dest [], b)
  | n :: rest, b, copied, dest =>
    if budgetExpired b then
      (.suspended (n :: rest) copied dest [.timeCheck true], b)
    else
      let b' := budgetTick b
      if env.fileOpFail did n then
        FilesRes.withEvsP [.timeCheck false, .fileItem did n, .log "ERROR" n "copy failed"]
          (copyFilesStage env did rest b' (copied + 1) dest)
      else if fileExists dest did n then
        FilesRes.withEvsP [.timeCheck false, .fileItem did n, .skippedFile did n]
          (copyFilesStage env did rest b' (copied + 1) dest)
      else
        FilesRes.withEvsP [.timeCheck false, .fileItem did n, .copiedFile did n]
          (copyFilesStage env did rest b' (copied + 1) (destAddFile dest did n))

/-- Outcome of the FOLDERS-stage inner loop of `processQueue`; `rear` is
the queue behind the head task, to which discovered children are
appended (`queue.push`). -/
inductive FoldersRes where
  | suspended (rest : List (Nat × String)) (rear : List Task) (dest : DestState) (evs : List Ev)
  | completed (rear : List Task) (dest : DestState) (evs : List Ev)
deriving Repr, DecidableEq

/-- Prefix events onto a FOLDERS-stage outcome. -/
def FoldersRes.withEvs (e : List Ev) : FoldersRes → FoldersRes
  | .suspended r q d evs => .suspended r q d (e ++ evs)
  | .completed q d evs => .completed q d (e ++ evs)

/-- Prefix events onto a FOLDERS-stage outcome paired with its budget. -/
def FoldersRes.withEvsP (e : List Ev) (p : FoldersRes × Option Nat) : FoldersRes × Option Nat :=
  (p.1.withEvs e, p.2)

/-- The FOLDERS-stage inner loop (`Code.js` lines 232-266): for each
remaining subfolder, check the time limit, find-or-create the same-named
destination subfolder (first match wins), enqueue a child task at the
tail, and on a per-item error log and continue. -/
def copyFoldersStage (env : Env) (did : Nat) :
    List (Nat × String) → List Task → Option Nat → DestState → FoldersRes × Option Nat
  | [], rear, b, dest => (.completed rear dest [], b)
  | (sid, sname) :: rest, rear, b, dest =>
    if budgetExpired b then
      (.suspended ((sid, sname) :: rest) rear dest [.timeCheck true], b)
    else
      let b' := budgetTick b
      if env.subOpFail did sid then
        FoldersRes.withEvsP [.timeCheck false, .subItem did sid sname,
            .log "ERROR" sname "folder failed"]
          (copyFoldersStage env did rest rear b' dest)
      else
        match findFolderByName dest did sname with
        | some c =>
          FoldersRes.withEvsP [.timeCheck false, .subItem did sid sname,
              .reusedFolder did sname c, .enqueued sid c]
            (copyFoldersStage env did rest (rear ++ [⟨sid, c, .FILES, none, none⟩]) b' dest)
        | none =>
          FoldersRes.withEvsP [.timeCheck false, .subItem did sid sname,
              .createdFolder did sname (createFolder dest did sname).2,
              .enqueued sid (createFolder dest did sname).2]
            (copyFoldersStage env did rest
              (rear ++ [⟨sid, (createFolder dest did sname).2, .FILES, none, none⟩]) b'
              (createFolder dest did sname).1)

/-- The copy job state that `saveState` persists (`{queue, totalCopied}`;
the destination tree itself lives in Drive) together with the in-memory
destination. -/
structure CopyCore where
  queue : List Task
  totalCopied : Nat
  dest : DestState
deriving Repr, DecidableEq

/-- Result of one `processQueue` execution. -/
inductive RunOut where
  | done (core : CopyCore) (finalStatus : String) (evs : List Ev)
  | paused (core : CopyCore) (evs : List Ev)
  | outOfGas (evs : List Ev)
deriving Repr, DecidableEq

/-- Prefix events onto an execution result. -/
def RunOut.withEvs (e : List Ev) : RunOut → RunOut
  | .done core s evs => .done core s (e ++ evs)
  | .paused core evs => .paused core (e ++ evs)
  | .outOfGas evs => .outOfGas (e ++ evs)

/-- Status string `'Pausing... (<n> processed)'`. -/
def pausingMsg (n : Nat) : String :=
  "Pausing... (" ++ toString n ++ " processed)"

/-- Status string `'Done. (<n> files processed)'`. -/
def copyDoneMsg (n : Nat) : String :=
  "Done. (" ++ toString n ++ " files processed)"

/-- Obtain the FILES-stage iterator for the head task (`Code.js` lines
159-171): resume from a persisted continuation token when present,
otherwise list the source folder afresh; `none` means the call threw
(stale cursor or listing failure), handled by one catch block. -/
def fileListing (env : Env) (sf : SrcFolder) (t : Task) : Option (List String) :=
  match t.fileToken with
  | some rest => if env.fileCursorStale t.sourceId then none else some rest
  | none => if env.listFilesFail t.sourceId then none else some sf.files

/-- Obtain the FOLDERS-stage iterator for the head task (`Code.js` lines
220-230), as `fileListing`. -/
def folderListing (env : Env) (sf : SrcFolder) (t : Task) : Option (List (Nat × String)) :=
  match t.folderToken with
  | some rest => if env.folderCursorStale t.sourceId then none else some rest
  | none => if env.listFoldersFail t.sourceId then none else some sf.subs

/-- One execution of `processQueue` (`Code.js` lines 128-289): drain the
task queue head-first through FILES then FOLDERS stages; on budget expiry
capture the continuation token into the head task, persist
`{queue, totalCopied}`, schedule a resume and return; on an enumeration
failure log WARN and abandon the stage; on an access failure log ERROR
and drop the task; on the queue emptying delete triggers, write the
final status and clear state.  `fuel` bounds the outer `while` loop. -/
def processQueueBody (env : Env) (drive : SrcDrive)
    (rec : List Task → Option Nat → Nat → DestState → RunOut) :
    List Task → Option Nat → Nat → DestState → RunOut
  | queue, b, totalCopied, dest =>
    match queue with
    | [] =>
      .done ⟨[], totalCopied, dest⟩ (copyDoneMsg totalCopied)
        [.removedTriggers, .statusWrite (copyDoneMsg totalCopied), .clearedState,
         .log "INFO" "Job" ("Copy Completed. Processed: " ++ toString totalCopied)]
    | t :: tail =>
      match lookupSrc drive t.sourceId, lookupDest dest t.destId with
      | some sf, some _ =>
        match t.stage with
        | .FILES =>
          match fileListing env sf t with
          | none =>
            (rec
                ({t with stage := .FOLDERS, fileToken := none} :: tail) b totalCopied dest).withEvs
              [.log "WARN" "File Iterator" "Error getting files (skipping)"]
          | some rest =>
            match copyFilesStage env t.destId rest b totalCopied dest with
            | (.suspended r c d evs, _) =>
              .paused ⟨{t with fileToken := some r} :: tail, c, d⟩
                (evs ++ [.savedState ({t with fileToken := some r} :: tail) c,
                  .scheduledResume, .statusWrite (pausingMsg c)])
            | (.completed c d evs, b') =>
              (rec
                  ({t with stage := .FOLDERS, fileToken := none} :: tail) b' c d).withEvs
                (evs ++ [.stageDone t.sourceId])
        | .FOLDERS =>
          match folderListing env sf t with
          | none =>
            (rec tail b totalCopied dest).withEvs
              [.log "WARN" "Folder Iterator" "Error getting folders (skipping)",
               .dequeued t.sourceId]
          | some rest =>
            match copyFoldersStage env t.destId rest tail b dest with
            | (.suspended r rear d evs, _) =>
              .paused ⟨{t with folderToken := some r} :: rear, totalCopied, d⟩
                (evs ++ [.savedState ({t with folderToken := some r} :: rear) totalCopied,
                  .scheduledResume, .statusWrite (pausingMsg totalCopied)])
            | (.completed rear d evs, b') =>
              (rec rear b' totalCopied d).withEvs
                (evs ++ [.dequeued t.sourceId])
      | _, _ =>
        (rec tail b totalCopied dest).withEvs
          [.log "ERROR" "Access" ("Cannot access folder: " ++ toString t.sourceId),
           .dequeued t.sourceId]

/-- One execution of `processQueue` as a fuelled iteration of the loop
body. -/
def processQueue (env : Env) (drive : SrcDrive) :
    Nat → List Task → Option Nat → Nat → DestState → RunOut
  | 0, _, _, _, _ => .outOfGas []
  | fuel + 1, queue, b, totalCopied, dest =>
    processQueueBody env drive (processQueue env drive fuel) queue b totalCopied dest

/-- Project the final core of a completed execution. -/
def RunOut.doneCore? : RunOut → Option CopyCore
  | .done core _ _ => some core
  | _ => none

/-- Project the final core and terminal status of a completed execution. -/
def RunOut.doneOut? : RunOut → Option (CopyCore × String)
  | .done core s _ => some (core, s)
  | _ => none

/-- Project the core of a completed or suspended execution. -/
def RunOut.core? : RunOut → Option CopyCore
  | .done core _ _ => some core
  | .paused core _ => some core
  | .outOfGas _ => none

/-- Events produced by an execution. -/
def RunOut.evsOf : RunOut → List Ev
  | .done _ _ evs => evs
  | .paused _ evs => evs
  | .outOfGas evs => evs

/-- Whether the execution finished the job. -/
def RunOut.isDone : RunOut → Bool
  | .done _ _ _ => true
  | _ => false

/-- A sequence of budget-limited executions with resumption from the
persisted state, as `startCopy` drives them: each entry of `ks` is the
number of time-limit checks that session survives; the terminal core and
status of the session that completes, if any. -/
def runSessions (env : Env) (drive : SrcDrive) (fuel : Nat) :
    List Nat → List Task → Nat → DestState → Option (CopyCore × String)
  | [], _, _, _ => none
  | k :: ks, q, tc, dest =>
    match processQueue env drive fuel q (some k) tc dest with
    | .done core msg _ => some (core, msg)
    | .paused core _ => runSessions env drive fuel ks core.queue core.totalCopied core.dest
    | .outOfGas _ => none

/-- Model of `setupJob` (`Code.js` lines 94-123): resolve the source
folder, create the root destination folder, and return the initial
single-task queue with zero copied, or `none` when the source is
inaccessible (`Error:` path, no state saved). -/
def setupJob (drive : SrcDrive) (sid : Nat) (dest : DestState) :
    Option (List Task × DestState) :=
  match lookupSrc drive sid with
  | none => none
  | some _ =>
    match createRootFolder dest with
    | (d', nid) => some ([⟨sid, nid, .FILES, none, none⟩], d')

/-- Verify-job counters as persisted (`{queue, checked, mismatches}`). -/
structure VerifyCore where
  queue : List Task
  checked : Nat
  mismatches : Nat
deriving Repr, DecidableEq

/-- Result of one `processVerifyQueue` execution. -/
inductive VRunOut where
  | done (core : VerifyCore) (finalMsg : String) (evs : List Ev)
  | paused (core : VerifyCore) (evs : List Ev)
  | outOfGas (evs : List Ev)
deriving Repr, DecidableEq

/-- Prefix events onto a verify execution result. -/
def VRunOut.withEvs (e : List Ev) : VRunOut → VRunOut
  | .done core s evs => .done core s (e ++ evs)
  | .paused core evs => .paused core (e ++ evs)
  | .outOfGas evs => .outOfGas (e ++ evs)

/-- Terminal verification message (`Code.js` lines 540-545):
`'Done. <n> files checked.'` plus `' <m> ISSUES (See Logs)'` when
mismatches are positive, `' Perfect Match.'` otherwise. -/
def verifyDoneMsg (checked mismatches : Nat) : String :=
  if mismatches > 0 then
    "Done. " ++ toString checked ++ " files checked." ++ " " ++ toString mismatches
      ++ " ISSUES (See Logs)"
  else
    "Done. " ++ toString checked ++ " files checked." ++ " Perfect Match."

/-- Status string `'Verifying... (<n> checked)'`. -/
def verifyingMsg (n : Nat) : String :=
  "Verifying... (" ++ toString n ++ " checked)"

/-- Outcome of the verify FILES-stage inner loop. -/
inductive VFilesRes where
  | suspended (rest : List String) (checked : Nat) (mismatches : Nat) (evs : List Ev)
  | completed (checked : Nat) (mismatches : Nat) (evs : List Ev)
deriving Repr, DecidableEq

/-- Prefix events onto a verify FILES-stage outcome. -/
def VFilesRes.withEvs (e : List Ev) : VFilesRes → VFilesRes
  | .suspended r c m evs => .suspended r c m (e ++ evs)
  | .completed c m evs => .completed c m (e ++ evs)

/-- Prefix events onto a verify FILES-stage outcome paired with its budget. -/
def VFilesRes.withEvsP (e : List Ev) (p : VFilesRes × Option Nat) : VFilesRes × Option Nat :=
  (p.1.withEvs e, p.2)

/-- The verify FILES-stage inner loop (`Code.js` lines 441-477): count
each file as checked; a file missing by name in the destination is a
mismatch logged `MISSING`; a per-file check error is logged and
skipped. -/
def verifyFilesStage (env : Env) (did : Nat) (dest : DestState) :
    List String → Option Nat → Nat → Nat → VFilesRes × Option Nat
  | [], b, checked, mismatches => (.completed checked mismatches [], b)
  | n :: rest, b, checked, mismatches =>
    if budgetExpired b then
      (.suspended (n :: rest) checked mismatches [.timeCheck true], b)
    else
      let b' := budgetTick b
      if env.fileOpFail did n then
        VFilesRes.withEvsP [.timeCheck false, .fileItem did n, .log "ERROR" n "Verify error"]
          (verifyFilesStage env did dest rest b' (checked + 1) mismatches)
      else if fileExists dest did n then
        VFilesRes.withEvsP [.timeCheck false, .fileItem did n]
          (verifyFilesStage env did dest rest b' (checked + 1) mismatches)
      else
        VFilesRes.withEvsP [.timeCheck false, .fileItem did n,
            .log "MISSING" n "File missing in destination"]
          (verifyFilesStage env did dest rest b' (checked + 1) (mismatches + 1))

/-- Outcome of the verify FOLDERS-stage inner loop. -/
inductive VFoldersRes where
  | suspended (rest : List (Nat × String)) (rear : List Task) (mismatches : Nat) (evs : List Ev)
  | completed (rear : List Task) (mismatches : Nat) (evs : List Ev)
deriving Repr, DecidableEq

/-- Prefix events onto a verify FOLDERS-stage outcome. -/
def VFoldersRes.withEvs (e : List Ev) : VFoldersRes → VFoldersRes
  | .suspended r q m evs => .suspended r q m (e ++ evs)
  | .completed q m evs => .completed q m (e ++ evs)

/-- Prefix events onto a verify FOLDERS-stage outcome paired with its budget. -/
def VFoldersRes.withEvsP (e : List Ev) (p : VFoldersRes × Option Nat) : VFoldersRes × Option Nat :=
  (p.1.withEvs e, p.2)

/-- The verify FOLDERS-stage inner loop (`Code.js` lines 498-530): a
subfolder present by name in the destination enqueues a child task; a
missing one is a mismatch logged `MISSING_DIR` with no descent. -/
def verifyFoldersStage (env : Env) (did : Nat) (dest : DestState) :
    List (Nat × String) → List Task → Option Nat → Nat → VFoldersRes × Option Nat
  | [], rear, b, mismatches => (.completed rear mismatches [], b)
  | (sid, sname) :: rest, rear, b, mismatches =>
    if budgetExpired b then
      (.suspended ((sid, sname) :: rest) rear mismatches [.timeCheck true], b)
    else
      let b' := budgetTick b
      if env.subOpFail did sid then
        VFoldersRes.withEvsP [.timeCheck false, .subItem did sid sname,
            .log "ERROR" sname "Verify Folder Error"]
          (verifyFoldersStage env did dest rest rear b' mismatches)
      else
        match findFolderByName dest did sname with
        | some c =>
          VFoldersRes.withEvsP [.timeCheck false, .subItem did sid sname, .enqueued sid c]
            (verifyFoldersStage env did dest rest (rear ++ [⟨sid, c, .FILES, none, none⟩])
              b' mismatches)
        | none =>
          VFoldersRes.withEvsP [.timeCheck false, .subItem did sid sname,
              .log "MISSING_DIR" sname "Folder missing in destination"]
            (verifyFoldersStage env did dest rest rear b' (mismatches + 1))

/-- One execution of `processVerifyQueue` (`Code.js` lines 398-553).
`c0`/`m0` are the `checked`/`mismatches` fields of the loaded state
object: on suspension the source saves that original object, whose
counter fields were never updated (only the queue is mutated in place),
so the persisted counters are the execution-start values while the
status line shows the current count. -/
def processVerifyBody (env : Env) (drive : SrcDrive) (c0 m0 : Nat)
    (rec : List Task → Option Nat → Nat → Nat → DestState → VRunOut) :
    List Task → Option Nat → Nat → Nat → DestState → VRunOut
  | queue, b, checked, mismatches, dest =>
    match queue with
    | [] =>
      .done ⟨[], checked, mismatches⟩ (verifyDoneMsg checked mismatches)
        [.removedTriggers, .clearedState, .statusWrite (verifyDoneMsg checked mismatches)]
    | t :: tail =>
      match lookupSrc drive t.sourceId, lookupDest dest t.destId with
      | some sf, some _ =>
        match t.stage with
        | .FILES =>
          match fileListing env sf t with
          | none =>
            (rec
                ({t with stage := .FOLDERS, fileToken := none} :: tail) b checked mismatches
                dest).withEvs
              [.log "WARN" "Verify-Files" "Error getting files"]
          | some rest =>
            match verifyFilesStage env t.destId dest rest b checked mismatches with
            | (.suspended r c _ evs, _) =>
              .paused ⟨{t with fileToken := some r} :: tail, c0, m0⟩
                (evs ++ [.savedVState ({t with fileToken := some r} :: tail) c0 m0,
                  .scheduledResume, .statusWrite (verifyingMsg c)])
            | (.completed c m evs, b') =>
              (rec
                  ({t with stage := .FOLDERS, fileToken := none} :: tail) b' c m dest).withEvs
                (evs ++ [.stageDone t.sourceId])
        | .FOLDERS =>
          match folderListing env sf t with
          | none =>
            (rec tail b checked mismatches dest).withEvs
              [.log "WARN" "Verify-Folders" "Error getting folders", .dequeued t.sourceId]
          | some rest =>
            match verifyFoldersStage env t.destId dest rest tail b mismatches with
            | (.suspended r rear _ evs, _) =>
              .paused ⟨{t with folderToken := some r} :: rear, c0, m0⟩
                (evs ++ [.savedVState ({t with folderToken := some r} :: rear) c0 m0,
                  .scheduledResume, .statusWrite (verifyingMsg checked)])
            | (.completed rear m evs, b') =>
              (rec rear b' checked m dest).withEvs
                (evs ++ [.dequeued t.sourceId])
      | _, _ =>
        (rec tail b checked mismatches dest).withEvs
          [.log "ERROR" "Access-Verify" ("Cannot access folder: " ++ toString t.sourceId),
           .dequeued t.sourceId]

/-- One execution of `processVerifyQueue` as a fuelled iteration of the
loop body. -/
def processVerifyQueue (env : Env) (drive : SrcDrive) (c0 m0 : Nat) :
    Nat → List Task → Option Nat → Nat → Nat → DestState → VRunOut
  | 0, _, _, _, _, _ => .outOfGas []
  | fuel + 1, queue, b, checked, mismatches, dest =>
    processVerifyBody env drive c0 m0 (processVerifyQueue env drive c0 m0 fuel)
      queue b checked mismatches dest

/-- Project the final core and message of a completed verify execution. -/
def VRunOut.doneOut? : VRunOut → Option (VerifyCore × String)
  | .done core s _ => some (core, s)
  | _ => none

/-! ### Association-list lookup lemmas for the destination state -/

theorem find?_map_keyed {β : Type} (g : Nat × β → Nat × β)
    (hg : ∀ p, (g p).1 = p.1) (l : List (Nat × β)) (j : Nat) :
    (l.map g).find? (fun p => p.1 == j) = (l.find? (fun p => p.1 == j)).map g := by
  induction l with
  | nil => rfl
  | cons p l ih =>
    by_cases hp : p.1 = j
    · simp [List.find?_cons_of_pos, hg, hp]
    · rw [List.map_cons, List.find?_cons_of_neg, List.find?_cons_of_neg, ih]
      · simpa using hp
      · simpa [hg] using hp

theorem find?_append_some {α : Type} (p : α → Bool) (l1 l2 : List α) (x : α)
    (h : l1.find? p = some x) : (l1 ++ l2).find? p = some x := by
  induction l1 with
  | nil => simp at h
  | cons a l ih =>
    rw [List.cons_append]
    by_cases ha : p a
    · rw [List.find?_cons_of_pos _ ha] at h
      rw [List.find?_cons_of_pos _ ha]
      exact h
    · rw [List.find?_cons_of_neg _ ha] at h
      rw [List.find?_cons_of_neg _ ha]
      exact ih h

theorem lookupDest_destAddFile (d : DestState) (i : Nat) (n : String) (j : Nat) :
    lookupDest (destAddFile d i n) j =
      (lookupDest d j).map
        (fun f => if j = i then ⟨f.files ++ [n], f.subs⟩ else f) := by
  unfold lookupDest destAddFile
  rw [find?_map_keyed]
  · rcases h : d.folders.find? (fun p => p.1 == j) with _ | p
    · rw [h]; rfl
    · have hp : p.1 = j := by
        have := List.find?_some h
        simpa using this
      rw [h]
      by_cases hji : j = i <;> simp [hp, hji]
  · intro p
    by_cases hp : p.1 = i <;> simp [hp]

theorem lookupDest_destAddFile_isSome (d : DestState) (i : Nat) (n : String) (j : Nat) :
    (lookupDest (destAddFile d i n) j).isSome = (lookupDest d j).isSome := by
  rw [lookupDest_destAddFile]
  simp

theorem lookupDest_createFolder (d : DestState) (i : Nat) (nm : String) (j : Nat)
    (hj : j ≠ d.nextId) :
    lookupDest (createFolder d i nm).1 j =
      (lookupDest d j).map
        (fun f => if j = i then ⟨f.files, f.subs ++ [(nm, d.nextId)]⟩ else f) := by
  unfold lookupDest createFolder
  rw [List.find?_cons_of_neg _ (by simpa using fun h => hj h.symm)]
  rw [find?_map_keyed]
  · rcases h : d.folders.find? (fun p => p.1 == j) with _ | p
    · rw [h]; rfl
    · have hp : p.1 = j := by
        have := List.find?_some h
        simpa using this
      rw [h]
      by_cases hji : j = i <;> simp [hp, hji]
  · intro p
    by_cases hp : p.1 = i <;> simp [hp]

theorem createFolder_nextId (d : DestState) (i : Nat) (nm : String) :
    (createFolder d i nm).1.nextId = d.nextId + 1 := rfl

theorem createFolder_folders (d : DestState) (i : Nat) (nm : String) :
    (createFolder d i nm).1.folders =
      (d.nextId, ⟨[], []⟩) ::
        d.folders.map
          (fun p => if p.1 == i then (p.1, ⟨p.2.files, p.2.subs ++ [(nm, d.nextId)]⟩) else p) :=
  rfl

theorem lookupDest_createFolder_new (d : DestState) (i : Nat) (nm : String) :
    lookupDest (createFolder d i nm).1 d.nextId = some ⟨[], []⟩ := by
  unfold lookupDest
  rw [createFolder_folders, List.find?_cons_of_pos _ (by simp)]
  rfl

/-! ### Destination well-formedness -/

theorem destInv_lt {d : DestState} {j : Nat} {f : DestFolder}
    (h : destInv d = true) (hl : lookupDest d j = some f) : j < d.nextId := by
  unfold lookupDest at hl
  rcases hfind : d.folders.find? (fun p => p.1 == j) with _ | p
  · rw [hfind] at hl; simp at hl
  · have hp : p.1 = j := by
      have := List.find?_some hfind
      simpa using this
    have hmem : p ∈ d.folders := List.mem_of_find?_eq_some hfind
    have := (List.all_eq_true.mp h) p hmem
    simp only [Bool.and_eq_true, decide_eq_true_eq] at this
    omega

theorem destInv_sub {d : DestState} {j : Nat} {f : DestFolder} {nm : String} {c : Nat}
    (h : destInv d = true) (hl : lookupDest d j = some f) (hs : (nm, c) ∈ f.subs) :
    (lookupDest d c).isSome = true ∧ c < d.nextId := by
  unfold lookupDest at hl
  rcases hfind : d.folders.find? (fun p => p.1 == j) with _ | p
  · rw [hfind] at hl; simp at hl
  · rw [hfind] at hl
    have hpf : p.2 = f := by simpa using hl
    have hmem : p ∈ d.folders := List.mem_of_find?_eq_some hfind
    have hall := (List.all_eq_true.mp h) p hmem
    simp only [Bool.and_eq_true, decide_eq_true_eq] at hall
    have hsub := (List.all_eq_true.mp hall.2) (nm, c) (hpf ▸ hs)
    simp only [Bool.and_eq_true, decide_eq_true_eq] at hsub
    exact ⟨hsub.2, hsub.1⟩

/-- Destination states only grow: ids persist, and each folder's file and
subfolder lists are extended at the tail only (so first-match name
resolution and name-existence checks are stable). -/
def DestLe (d d' : DestState) : Prop :=
  d.nextId ≤ d'.nextId ∧
    ∀ j f, lookupDest d j = some f →
      ∃ f', lookupDest d' j = some f' ∧
        (∃ e, f'.files = f.files ++ e) ∧ (∃ e, f'.subs = f.subs ++ e)

theorem DestLe.rfl (d : DestState) : DestLe d d := by
  refine ⟨le_refl _, fun j f hl => ⟨f, hl, ⟨[], by simp⟩, ⟨[], by simp⟩⟩⟩

theorem DestLe.trans {d1 d2 d3 : DestState} (h1 : DestLe d1 d2) (h2 : DestLe d2 d3) :
    DestLe d1 d3 := by
  refine ⟨le_trans h1.1 h2.1, fun j f hl => ?_⟩
  obtain ⟨f2, hl2, ⟨e1, he1⟩, ⟨s1, hs1⟩⟩ := h1.2 j f hl
  obtain ⟨f3, hl3, ⟨e2, he2⟩, ⟨s2, hs2⟩⟩ := h2.2 j f2 hl2
  exact ⟨f3, hl3, ⟨e1 ++ e2, by rw [he2, he1, List.append_assoc]⟩,
    ⟨s1 ++ s2, by rw [hs2, hs1, List.append_assoc]⟩⟩

theorem destLe_addFile (d : DestState) (i : Nat) (n : String) :
    DestLe d (destAddFile d i n) := by
  refine ⟨le_refl _, fun j f hl => ?_⟩
  rw [lookupDest_destAddFile, hl]
  by_cases hj : j = i
  · refine ⟨⟨f.files ++ [n], f.subs⟩, by simp [hj], ⟨[n], by simp⟩, ⟨[], by simp⟩⟩
  · refine ⟨f, by simp [hj], ⟨[], by simp⟩, ⟨[], by simp⟩⟩

theorem destLe_createFolder (d : DestState) (i : Nat) (nm : String)
    (hinv : destInv d = true) : DestLe d (createFolder d i nm).1 := by
  refine ⟨by rw [createFolder_nextId]; omega, fun j f hl => ?_⟩
  have hj : j ≠ d.nextId := Nat.ne_of_lt (destInv_lt hinv hl)
  rw [lookupDest_createFolder d i nm j hj, hl]
  by_cases hji : j = i
  · refine ⟨⟨f.files, f.subs ++ [(nm, d.nextId)]⟩, by simp [hji], ⟨[], by simp⟩,
      ⟨[(nm, d.nextId)], by simp⟩⟩
  · refine ⟨f, by simp [hji], ⟨[], by simp⟩, ⟨[], by simp⟩⟩

theorem lookupDest_isSome_mono {d d' : DestState} (h : DestLe d d') {j : Nat}
    (hl : (lookupDest d j).isSome = true) : (lookupDest d' j).isSome = true := by
  rcases Option.isSome_iff_exists.mp hl with ⟨f, hf⟩
  obtain ⟨f', hl', _, _⟩ := h.2 j f hf
  simp [hl']

theorem contains_append_left {l1 l2 : List String} {n : String}
    (h : l1.contains n = true) : (l1 ++ l2).contains n = true := by
  rw [List.contains_eq_any_beq] at h ⊢
  rw [List.any_append, h]
  rfl

theorem fileExists_mono {d d' : DestState} (h : DestLe d d') {i : Nat} {n : String}
    (hf : fileExists d i n = true) : fileExists d' i n = true := by
  unfold fileExists at hf ⊢
  rcases hl : lookupDest d i with _ | f
  · rw [hl] at hf; simp at hf
  · rw [hl] at hf
    obtain ⟨f', hl', ⟨e, he⟩, _⟩ := h.2 i f hl
    rw [hl']
    show f'.files.contains n = true
    rw [he]
    exact contains_append_left hf

theorem findFolderByName_mono {d d' : DestState} (h : DestLe d d') {i : Nat}
    {nm : String} {c : Nat} (hf : findFolderByName d i nm = some c) :
    findFolderByName d' i nm = some c := by
  unfold findFolderByName at hf ⊢
  rcases hl : lookupDest d i with _ | f
  · rw [hl] at hf; simp at hf
  · rw [hl] at hf
    have hf' : (f.subs.find? (fun p => p.1 == nm)).map (fun p => p.2) = some c := hf
    obtain ⟨f', hl', _, ⟨e, he⟩⟩ := h.2 i f hl
    rw [hl']
    show (f'.subs.find? (fun p => p.1 == nm)).map (fun p => p.2) = some c
    rw [he]
    rcases hfind : f.subs.find? (fun p => p.1 == nm) with _ | p
    · rw [hfind] at hf'; simp at hf'
    · rw [hfind] at hf'
      rw [find?_append_some _ _ _ _ hfind]
      exact hf'

theorem destAddFile_nextId (d : DestState) (i : Nat) (n : String) :
    (destAddFile d i n).nextId = d.nextId := rfl

theorem destAddFile_folders (d : DestState) (i : Nat) (n : String) :
    (destAddFile d i n).folders =
      d.folders.map
        (fun p => if p.1 == i then (p.1, ⟨p.2.files ++ [n], p.2.subs⟩) else p) := rfl

theorem destInv_addFile {d : DestState} (h : destInv d = true) (i : Nat) (n : String) :
    destInv (destAddFile d i n) = true := by
  unfold destInv at h ⊢
  rw [List.all_eq_true] at h ⊢
  intro q hq
  rw [destAddFile_folders, List.mem_map] at hq
  obtain ⟨p, hp, hgp⟩ := hq
  have hkey : q.1 = p.1 := by
    subst hgp; by_cases hpi : p.1 = i <;> simp [hpi]
  have hsubs : q.2.subs = p.2.subs := by
    subst hgp; by_cases hpi : p.1 = i <;> simp [hpi]
  have hcond := h p hp
  simp only [Bool.and_eq_true, decide_eq_true_eq, List.all_eq_true] at hcond ⊢
  refine ⟨?_, ?_⟩
  · rw [destAddFile_nextId, hkey]
    exact hcond.1
  · intro s hs
    rw [hsubs] at hs
    have hold := hcond.2 s hs
    refine ⟨by rw [destAddFile_nextId]; exact hold.1, ?_⟩
    rw [lookupDest_destAddFile_isSome]
    exact hold.2

theorem destInv_createFolder {d : DestState} (h : destInv d = true) (i : Nat) (nm : String) :
    destInv (createFolder d i nm).1 = true := by
  unfold destInv at h ⊢
  rw [List.all_eq_true] at h ⊢
  intro q hq
  rw [createFolder_folders, List.mem_cons] at hq
  rcases hq with hq | hq
  · subst hq
    simp [createFolder_nextId]
  · rw [List.mem_map] at hq
    obtain ⟨p, hp, hgp⟩ := hq
    have hcond := h p hp
    simp only [Bool.and_eq_true, decide_eq_true_eq, List.all_eq_true] at hcond ⊢
    have hkey : q.1 = p.1 := by
      subst hgp; by_cases hpi : p.1 = i <;> simp [hpi]
    have hq2 : q.2.subs = p.2.subs ∨ q.2.subs = p.2.subs ++ [(nm, d.nextId)] := by
      subst hgp
      by_cases hpi : p.1 = i
      · right; simp [hpi]
      · left; simp [hpi]
    have hOld : ∀ s ∈ p.2.subs,
        s.2 < (createFolder d i nm).1.nextId ∧
          (lookupDest (createFolder d i nm).1 s.2).isSome = true := by
      intro s hs'
      have hold := hcond.2 s hs'
      refine ⟨by rw [createFolder_nextId]; exact Nat.lt_succ_of_lt hold.1, ?_⟩
      rw [lookupDest_createFolder d i nm s.2 (Nat.ne_of_lt hold.1)]
      rcases Option.isSome_iff_exists.mp hold.2 with ⟨g, hg⟩
      rw [hg]
      rfl
    refine ⟨?_, ?_⟩
    · rw [createFolder_nextId, hkey]
      exact Nat.lt_succ_of_lt hcond.1
    · intro s hs
      rcases hq2 with hq2 | hq2
      · rw [hq2] at hs
        exact hOld s hs
      · rw [hq2] at hs
        rcases List.mem_append.mp hs with hs | hs
        · exact hOld s hs
        · have hsnew : s = (nm, d.nextId) := by simpa using hs
          subst hsnew
          refine ⟨by rw [createFolder_nextId]; exact Nat.lt_succ_self _, ?_⟩
          rw [lookupDest_createFolder_new]
          rfl

/-! ### Fuel monotonicity: the fuel bound only cuts runs short, it never
changes the outcome of a run that finishes within it -/

/-- Whether an execution ran out of fuel. -/
def RunOut.isGas : RunOut → Bool
  | .outOfGas _ => true
  | _ => false

@[simp] theorem RunOut.isGas_withEvs (e : List Ev) (r : RunOut) :
    (r.withEvs e).isGas = r.isGas := by
  cases r <;> rfl

theorem runOutStep_lift {E : List Ev} {X Y : RunOut} (h : X.isGas = true ∨ Y = X) :
    (X.withEvs E).isGas = true ∨ Y.withEvs E = X.withEvs E := by
  rcases h with h | h
  · exact Or.inl (by simpa using h)
  · exact Or.inr (by rw [h])

theorem processQueueBody_congr (env : Env) (drive : SrcDrive)
    (rec1 rec2 : List Task → Option Nat → Nat → DestState → RunOut)
    (h : ∀ q b tc d, (rec1 q b tc d).isGas = true ∨ rec2 q b tc d = rec1 q b tc d) :
    ∀ q b tc d,
      (processQueueBody env drive rec1 q b tc d).isGas = true ∨
        processQueueBody env drive rec2 q b tc d = processQueueBody env drive rec1 q b tc d := by
  intro q b tc d
  cases q with
  | nil => exact Or.inr rfl
  | cons t tail =>
    simp only [processQueueBody]
    split
    · split
      · split
        · exact runOutStep_lift (h _ _ _ _)
        · split
          · exact Or.inr rfl
          · exact runOutStep_lift (h _ _ _ _)
      · split
        · exact runOutStep_lift (h _ _ _ _)
        · split
          · exact Or.inr rfl
          · exact runOutStep_lift (h _ _ _ _)
    · exact runOutStep_lift (h _ _ _ _)

theorem processQueue_fuel_step (env : Env) (drive : SrcDrive) :
    ∀ fuel q b tc d,
      (processQueue env drive fuel q b tc d).isGas = true ∨
        processQueue env drive (fuel + 1) q b tc d = processQueue env drive fuel q b tc d := by
  intro fuel
  induction fuel with
  | zero => intro q b tc d; exact Or.inl rfl
  | succ fuel ih =>
    intro q b tc d
    exact processQueueBody_congr env drive (processQueue env drive fuel)
      (processQueue env drive (fuel + 1)) ih q b tc d

theorem processQueue_mono (env : Env) (drive : SrcDrive) {fuel fuel' : Nat}
    {q : List Task} {b : Option Nat} {tc : Nat} {d : DestState}
    (hle : fuel ≤ fuel') (hgas : (processQueue env drive fuel q b tc d).isGas = false) :
    processQueue env drive fuel' q b tc d = processQueue env drive fuel q b tc d := by
  induction fuel', hle using Nat.le_induction with
  | base => rfl
  | succ n hn ih =>
    rcases processQueue_fuel_step env drive n q b tc d with h | h
    · rw [ih] at h
      rw [hgas] at h
      cases h
    · rw [h, ih]

/-! ### Inversion helpers for event-prefixed results -/

theorem RunOut.withEvs_done_run {E : List Ev} {r : RunOut} {core : CopyCore} {msg : String}
    {evs : List Ev} (h : r.withEvs E = .done core msg evs) :
    ∃ evs2, r = .done core msg evs2 ∧ evs = E ++ evs2 := by
  cases r with
  | done c m e =>
    rw [RunOut.withEvs] at h
    rcases h with ⟨⟩
    exact ⟨e, rfl, rfl⟩
  | paused c e => exact absurd h (by rw [RunOut.withEvs]; simp)
  | outOfGas e => exact absurd h (by rw [RunOut.withEvs]; simp)

theorem RunOut.withEvs_paused {E : List Ev} {r : RunOut} {core : CopyCore}
    {evs : List Ev} (h : r.withEvs E = .paused core evs) :
    ∃ evs2, r = .paused core evs2 ∧ evs = E ++ evs2 := by
  cases r with
  | done c m e => exact absurd h (by rw [RunOut.withEvs]; simp)
  | paused c e =>
    rw [RunOut.withEvs] at h
    rcases h with ⟨⟩
    exact ⟨e, rfl, rfl⟩
  | outOfGas e => exact absurd h (by rw [RunOut.withEvs]; simp)

theorem VRunOut.withEvs_done_vrun_run {E : List Ev} {r : VRunOut} {core : VerifyCore} {msg : String}
    {evs : List Ev} (h : r.withEvs E = .done core msg evs) :
    ∃ evs2, r = .done core msg evs2 ∧ evs = E ++ evs2 := by
  cases r with
  | done c m e =>
    rw [VRunOut.withEvs] at h
    rcases h with ⟨⟩
    exact ⟨e, rfl, rfl⟩
  | paused c e => exact absurd h (by rw [VRunOut.withEvs]; simp)
  | outOfGas e => exact absurd h (by rw [VRunOut.withEvs]; simp)

/-! ### The terminal verification message -/

theorem processVerifyQueue_done_msg (env : Env) (drive : SrcDrive) (c0 m0 : Nat) :
    ∀ fuel q b checked mismatches dest core msg evs,
      processVerifyQueue env drive c0 m0 fuel q b checked mismatches dest =
        .done core msg evs →
      msg = verifyDoneMsg core.checked core.mismatches ∧ core.queue = [] := by
  intro fuel
  induction fuel with
  | zero =>
    intro q b c m d core msg evs h
    exact absurd h (by rw [processVerifyQueue]; simp)
  | succ fuel ih =>
    intro q b c m d core msg evs h
    rw [show processVerifyQueue env drive c0 m0 (fuel + 1) q b c m d =
        processVerifyBody env drive c0 m0 (processVerifyQueue env drive c0 m0 fuel)
          q b c m d from rfl] at h
    cases q with
    | nil =>
      rw [processVerifyBody] at h
      rcases h with ⟨⟩
      exact ⟨rfl, rfl⟩
    | cons t tail =>
      rw [processVerifyBody] at h
      split at h
      · split at h
        · split at h
          · obtain ⟨evs2, h2, _⟩ := VRunOut.withEvs_done_vrun_run h
            exact ih _ _ _ _ _ _ _ _ h2
          · split at h
            · exact absurd h (by simp)
            · obtain ⟨evs2, h2, _⟩ := VRunOut.withEvs_done_vrun_run h
              exact ih _ _ _ _ _ _ _ _ h2
        · split at h
          · obtain ⟨evs2, h2, _⟩ := VRunOut.withEvs_done_vrun_run h
            exact ih _ _ _ _ _ _ _ _ h2
          · split at h
            · exact absurd h (by simp)
            · obtain ⟨evs2, h2, _⟩ := VRunOut.withEvs_done_vrun_run h
              exact ih _ _ _ _ _ _ _ _ h2
      · obtain ⟨evs2, h2, _⟩ := VRunOut.withEvs_done_vrun_run h
        exact ih _ _ _ _ _ _ _ _ h2

/-! ### Per-branch unfolding equations of the walkers -/

theorem processQueue_succ (env : Env) (drive : SrcDrive) (fuel : Nat) (q : List Task)
    (b : Option Nat) (tc : Nat) (d : DestState) :
    processQueue env drive (fuel + 1) q b tc d =
      processQueueBody env drive (processQueue env drive fuel) q b tc d := rfl

theorem processQueue_nil (env : Env) (drive : SrcDrive) (fuel : Nat)
    (b : Option Nat) (tc : Nat) (d : DestState) :
    processQueue env drive (fuel + 1) [] b tc d =
      .done ⟨[], tc, d⟩ (copyDoneMsg tc)
        [.removedTriggers, .statusWrite (copyDoneMsg tc), .clearedState,
         .log "INFO" "Job" ("Copy Completed. Processed: " ++ toString tc)] := rfl

theorem processQueue_access (env : Env) (drive : SrcDrive) (fuel : Nat) (t : Task)
    (tail : List Task) (b : Option Nat) (tc : Nat) (d : DestState)
    (h : lookupSrc drive t.sourceId = none ∨ lookupDest d t.destId = none) :
    processQueue env drive (fuel + 1) (t :: tail) b tc d =
      (processQueue env drive fuel tail b tc d).withEvs
        [.log "ERROR" "Access" ("Cannot access folder: " ++ toString t.sourceId),
         .dequeued t.sourceId] := by
  rcases h with h | h
  · simp only [processQueue_succ, processQueueBody, h]
  · rcases hs : lookupSrc drive t.sourceId with _ | sf <;>
      simp only [processQueue_succ, processQueueBody, hs, h]

theorem processQueue_files_nolist (env : Env) (drive : SrcDrive) (fuel : Nat) (t : Task)
    (tail : List Task) (b : Option Nat) (tc : Nat) (d : DestState) (sf : SrcFolder)
    (df : DestFolder)
    (hs : lookupSrc drive t.sourceId = some sf) (hd : lookupDest d t.destId = some df)
    (hst : t.stage = .FILES) (hfl : fileListing env sf t = none) :
    processQueue env drive (fuel + 1) (t :: tail) b tc d =
      (processQueue env drive fuel ({t with stage := .FOLDERS, fileToken := none} :: tail)
          b tc d).withEvs
        [.log "WARN" "File Iterator" "Error getting files (skipping)"] := by
  simp only [processQueue_succ, processQueueBody, hs, hd, hst, hfl]

theorem processQueue_files_suspended (env : Env) (drive : SrcDrive) (fuel : Nat) (t : Task)
    (tail : List Task) (b : Option Nat) (tc : Nat) (d : DestState) (sf : SrcFolder)
    (df : DestFolder) (rest r : List String) (c : Nat) (d2 : DestState) (evs : List Ev)
    (b2 : Option Nat)
    (hs : lookupSrc drive t.sourceId = some sf) (hd : lookupDest d t.destId = some df)
    (hst : t.stage = .FILES) (hfl : fileListing env sf t = some rest)
    (hloop : copyFilesStage env t.destId rest b tc d = (.suspended r c d2 evs, b2)) :
    processQueue env drive (fuel + 1) (t :: tail) b tc d =
      .paused ⟨{t with fileToken := some r} :: tail, c, d2⟩
        (evs ++ [.savedState ({t with fileToken := some r} :: tail) c,
          .scheduledResume, .statusWrite (pausingMsg c)]) := by
  simp only [processQueue_succ, processQueueBody, hs, hd, hst, hfl, hloop]

theorem processQueue_files_completed (env : Env) (drive : SrcDrive) (fuel : Nat) (t : Task)
    (tail : List Task) (b : Option Nat) (tc : Nat) (d : DestState) (sf : SrcFolder)
    (df : DestFolder) (rest : List String) (c : Nat) (d2 : DestState) (evs : List Ev)
    (b2 : Option Nat)
    (hs : lookupSrc drive t.sourceId = some sf) (hd : lookupDest d t.destId = some df)
    (hst : t.stage = .FILES) (hfl : fileListing env sf t = some rest)
    (hloop : copyFilesStage env t.destId rest b tc d = (.completed c d2 evs, b2)) :
    processQueue env drive (fuel + 1) (t :: tail) b tc d =
      (processQueue env drive fuel ({t with stage := .FOLDERS, fileToken := none} :: tail)
          b2 c d2).withEvs (evs ++ [.stageDone t.sourceId]) := by
  simp only [processQueue_succ, processQueueBody, hs, hd, hst, hfl, hloop]

theorem processQueue_folders_nolist (env : Env) (drive : SrcDrive) (fuel : Nat) (t : Task)
    (tail : List Task) (b : Option Nat) (tc : Nat) (d : DestState) (sf : SrcFolder)
    (df : DestFolder)
    (hs : lookupSrc drive t.sourceId = some sf) (hd : lookupDest d t.destId = some df)
    (hst : t.stage = .FOLDERS) (hfl : folderListing env sf t = none) :
    processQueue env drive (fuel + 1) (t :: tail) b tc d =
      (processQueue env drive fuel tail b tc d).withEvs
        [.log "WARN" "Folder Iterator" "Error getting folders (skipping)",
         .dequeued t.sourceId] := by
  simp only [processQueue_succ, processQueueBody, hs, hd, hst, hfl]

theorem processQueue_folders_suspended (env : Env) (drive : SrcDrive) (fuel : Nat) (t : Task)
    (tail : List Task) (b : Option Nat) (tc : Nat) (d : DestState) (sf : SrcFolder)
    (df : DestFolder) (rest r : List (Nat × String)) (rear : List Task) (d2 : DestState)
    (evs : List Ev) (b2 : Option Nat)
    (hs : lookupSrc drive t.sourceId = some sf) (hd : lookupDest d t.destId = some df)
    (hst : t.stage = .FOLDERS) (hfl : folderListing env sf t = some rest)
    (hloop : copyFoldersStage env t.destId rest tail b d = (.suspended r rear d2 evs, b2)) :
    processQueue env drive (fuel + 1) (t :: tail) b tc d =
      .paused ⟨{t with folderToken := some r} :: rear, tc, d2⟩
        (evs ++ [.savedState ({t with folderToken := some r} :: rear) tc,
          .scheduledResume, .statusWrite (pausingMsg tc)]) := by
  simp only [processQueue_succ, processQueueBody, hs, hd, hst, hfl, hloop]

theorem processQueue_folders_completed (env : Env) (drive : SrcDrive) (fuel : Nat) (t : Task)
    (tail : List Task) (b : Option Nat) (tc : Nat) (d : DestState) (sf : SrcFolder)
    (df : DestFolder) (rest : List (Nat × String)) (rear : List Task) (d2 : DestState)
    (evs : List Ev) (b2 : Option Nat)
    (hs : lookupSrc drive t.sourceId = some sf) (hd : lookupDest d t.destId = some df)
    (hst : t.stage = .FOLDERS) (hfl : folderListing env sf t = some rest)
    (hloop : copyFoldersStage env t.destId rest tail b d = (.completed rear d2 evs, b2)) :
    processQueue env drive (fuel + 1) (t :: tail) b tc d =
      (processQueue env drive fuel rear b2 tc d2).withEvs
        (evs ++ [.dequeued t.sourceId]) := by
  simp only [processQueue_succ, processQueueBody, hs, hd, hst, hfl, hloop]

theorem processVerifyQueue_succ (env : Env) (drive : SrcDrive) (c0 m0 : Nat) (fuel : Nat)
    (q : List Task) (b : Option Nat) (checked mismatches : Nat) (d : DestState) :
    processVerifyQueue env drive c0 m0 (fuel + 1) q b checked mismatches d =
      processVerifyBody env drive c0 m0 (processVerifyQueue env drive c0 m0 fuel)
        q b checked mismatches d := rfl

theorem processVerifyQueue_access (env : Env) (drive : SrcDrive) (c0 m0 : Nat) (fuel : Nat)
    (t : Task) (tail : List Task) (b : Option Nat) (checked mismatches : Nat)
    (d : DestState)
    (h : lookupSrc drive t.sourceId = none ∨ lookupDest d t.destId = none) :
    processVerifyQueue env drive c0 m0 (fuel + 1) (t :: tail) b checked mismatches d =
      (processVerifyQueue env drive c0 m0 fuel tail b checked mismatches d).withEvs
        [.log "ERROR" "Access-Verify" ("Cannot access folder: " ++ toString t.sourceId),
         .dequeued t.sourceId] := by
  rcases h with h | h
  · simp only [processVerifyQueue_succ, processVerifyBody, h]
  · rcases hs : lookupSrc drive t.sourceId with _ | sf <;>
      simp only [processVerifyQueue_succ, processVerifyBody, hs, h]

/-! ### Stage-loop lemmas: the budget only decides where the loop stops,
never what a surviving iteration does -/

@[simp] theorem budgetExpired_none : budgetExpired none = false := rfl

@[simp] theorem budgetTick_none : budgetTick none = none := rfl

/-- Budget-independent outcome signature of a FILES-stage run: the
remaining listing (when suspended), the counter and the destination. -/
def FilesRes.sig : FilesRes → Option (List String) × Nat × DestState
  | .suspended r c d _ => (some r, c, d)
  | .completed c d _ => (none, c, d)

@[simp] theorem FilesRes.sig_withEvs_files (e : List Ev) (r : FilesRes) :
    (r.withEvs e).sig = r.sig := by
  cases r <;> rfl

theorem FilesRes.withEvs_completed_files {E : List Ev} {r : FilesRes} {c : Nat} {d : DestState}
    {evs : List Ev} (h : r.withEvs E = .completed c d evs) :
    ∃ evs2, r = .completed c d evs2 ∧ evs = E ++ evs2 := by
  cases r with
  | suspended r2 c2 d2 e => exact absurd h (by rw [FilesRes.withEvs]; simp)
  | completed c2 d2 e =>
    rw [FilesRes.withEvs] at h
    rcases h with ⟨⟩
    exact ⟨e, rfl, rfl⟩

theorem FilesRes.withEvs_suspended_files {E : List Ev} {r : FilesRes} {r2 : List String}
    {c : Nat} {d : DestState} {evs : List Ev}
    (h : r.withEvs E = .suspended r2 c d evs) :
    ∃ evs2, r = .suspended r2 c d evs2 ∧ evs = E ++ evs2 := by
  cases r with
  | suspended r3 c2 d2 e =>
    rw [FilesRes.withEvs] at h
    rcases h with ⟨⟩
    exact ⟨e, rfl, rfl⟩
  | completed c2 d2 e => exact absurd h (by rw [FilesRes.withEvs]; simp)

theorem copyFilesStage_none_completed (env : Env) (did : Nat) :
    ∀ rest tc d, ∃ c d2 evs,
      copyFilesStage env did rest none tc d = (.completed c d2 evs, none) := by
  intro rest
  induction rest with
  | nil => intro tc d; exact ⟨tc, d, [], rfl⟩
  | cons n rest ih =>
    intro tc d
    by_cases hop : env.fileOpFail did n = true
    · obtain ⟨c, d2, evs, heq⟩ := ih (tc + 1) d
      refine ⟨c, d2,
        [.timeCheck false, .fileItem did n, .log "ERROR" n "copy failed"] ++ evs, ?_⟩
      simp [copyFilesStage, hop, heq, FilesRes.withEvsP, FilesRes.withEvs]
    · by_cases hex : fileExists d did n = true
      · obtain ⟨c, d2, evs, heq⟩ := ih (tc + 1) d
        refine ⟨c, d2,
          [.timeCheck false, .fileItem did n, .skippedFile did n] ++ evs, ?_⟩
        simp [copyFilesStage, hop, hex, heq, FilesRes.withEvsP, FilesRes.withEvs]
      · obtain ⟨c, d2, evs, heq⟩ := ih (tc + 1) (destAddFile d did n)
        refine ⟨c, d2,
          [.timeCheck false, .fileItem did n, .copiedFile did n] ++ evs, ?_⟩
        simp [copyFilesStage, hop, hex, heq, FilesRes.withEvsP, FilesRes.withEvs]

theorem copyFilesStage_completed_budget (env : Env) (did : Nat) :
    ∀ rest b tc d c d2 evs b2,
      copyFilesStage env did rest b tc d = (.completed c d2 evs, b2) →
      copyFilesStage env did rest none tc d = (.completed c d2 evs, none) := by
  intro rest
  induction rest with
  | nil =>
    intro b tc d c d2 evs b2 h
    rw [copyFilesStage] at h
    rcases h with ⟨⟩
    rfl
  | cons n rest ih =>
    intro b tc d c d2 evs b2 h
    rw [copyFilesStage] at h
    by_cases hb : budgetExpired b = true
    · rw [if_pos hb] at h
      exact absurd h (by simp)
    · rw [if_neg hb] at h
      by_cases hop : env.fileOpFail did n = true
      · simp only [hop, if_true, FilesRes.withEvsP, Prod.mk.injEq] at h
        obtain ⟨h1, h2⟩ := h
        obtain ⟨evs2, hr, hevs⟩ := FilesRes.withEvs_completed_files h1
        have hrec := ih _ _ _ _ _ _ _ (Prod.ext hr h2)
        subst hevs
        simp [copyFilesStage, hop, hrec, FilesRes.withEvsP, FilesRes.withEvs]
      · by_cases hex : fileExists d did n = true
        · simp only [hop, hex, if_true, if_false, Bool.false_eq_true,
            FilesRes.withEvsP, Prod.mk.injEq] at h
          obtain ⟨h1, h2⟩ := h
          obtain ⟨evs2, hr, hevs⟩ := FilesRes.withEvs_completed_files h1
          have hrec := ih _ _ _ _ _ _ _ (Prod.ext hr h2)
          subst hevs
          simp [copyFilesStage, hop, hex, hrec, FilesRes.withEvsP, FilesRes.withEvs]
        · simp only [hop, hex, if_false, Bool.false_eq_true,
            FilesRes.withEvsP, Prod.mk.injEq] at h
          obtain ⟨h1, h2⟩ := h
          obtain ⟨evs2, hr, hevs⟩ := FilesRes.withEvs_completed_files h1
          have hrec := ih _ _ _ _ _ _ _ (Prod.ext hr h2)
          subst hevs
          simp [copyFilesStage, hop, hex, hrec, FilesRes.withEvsP, FilesRes.withEvs]

theorem copyFilesStage_suspended_resume (env : Env) (did : Nat) :
    ∀ rest b tc d r c2 d2 evs b2,
      copyFilesStage env did rest b tc d = (.suspended r c2 d2 evs, b2) →
      (copyFilesStage env did rest none tc d).1.sig =
        (copyFilesStage env did r none c2 d2).1.sig := by
  intro rest
  induction rest with
  | nil =>
    intro b tc d r c2 d2 evs b2 h
    rw [copyFilesStage] at h
    exact absurd h (by simp)
  | cons n rest ih =>
    intro b tc d r c2 d2 evs b2 h
    rw [copyFilesStage] at h
    by_cases hb : budgetExpired b = true
    · rw [if_pos hb] at h
      rcases h with ⟨⟩
      rfl
    · rw [if_neg hb] at h
      by_cases hop : env.fileOpFail did n = true
      · simp only [hop, if_true, FilesRes.withEvsP, Prod.mk.injEq] at h
        obtain ⟨h1, h2⟩ := h
        obtain ⟨evs2, hr, hevs⟩ := FilesRes.withEvs_suspended_files h1
        have hstep := ih _ _ _ _ _ _ _ _ (Prod.ext hr h2)
        calc (copyFilesStage env did (n :: rest) none tc d).1.sig
            = (copyFilesStage env did rest none (tc + 1) d).1.sig := by
              simp [copyFilesStage, hop, FilesRes.withEvsP]
          _ = _ := hstep
      · by_cases hex : fileExists d did n = true
        · simp only [hop, hex, if_true, if_false, Bool.false_eq_true,
            FilesRes.withEvsP, Prod.mk.injEq] at h
          obtain ⟨h1, h2⟩ := h
          obtain ⟨evs2, hr, hevs⟩ := FilesRes.withEvs_suspended_files h1
          have hstep := ih _ _ _ _ _ _ _ _ (Prod.ext hr h2)
          calc (copyFilesStage env did (n :: rest) none tc d).1.sig
              = (copyFilesStage env did rest none (tc + 1) d).1.sig := by
                simp [copyFilesStage, hop, hex, FilesRes.withEvsP]
            _ = _ := hstep
        · simp only [hop, hex, if_false, Bool.false_eq_true,
            FilesRes.withEvsP, Prod.mk.injEq] at h
          obtain ⟨h1, h2⟩ := h
          obtain ⟨evs2, hr, hevs⟩ := FilesRes.withEvs_suspended_files h1
          have hstep := ih _ _ _ _ _ _ _ _ (Prod.ext hr h2)
          calc (copyFilesStage env did (n :: rest) none tc d).1.sig
              = (copyFilesStage env did rest none (tc + 1) (destAddFile d did n)).1.sig := by
                simp [copyFilesStage, hop, hex, FilesRes.withEvsP]
            _ = _ := hstep

/-- Budget-independent outcome signature of a FOLDERS-stage run: the
remaining listing (when suspended), the queue behind the head task and
the destination. -/
def FoldersRes.sig : FoldersRes → Option (List (Nat × String)) × List Task × DestState
  | .suspended r q d _ => (some r, q, d)
  | .completed q d _ => (none, q, d)

@[simp] theorem FoldersRes.sig_withEvs_folders (e : List Ev) (r : FoldersRes) :
    (r.withEvs e).sig = r.sig := by
  cases r <;> rfl

theorem FoldersRes.withEvs_completed_folders {E : List Ev} {r : FoldersRes} {q : List Task}
    {d : DestState} {evs : List Ev} (h : r.withEvs E = .completed q d evs) :
    ∃ evs2, r = .completed q d evs2 ∧ evs = E ++ evs2 := by
  cases r with
  | suspended r2 q2 d2 e => exact absurd h (by rw [FoldersRes.withEvs]; simp)
  | completed q2 d2 e =>
    rw [FoldersRes.withEvs] at h
    rcases h with ⟨⟩
    exact ⟨e, rfl, rfl⟩

theorem FoldersRes.withEvs_suspended_folders {E : List Ev} {r : FoldersRes}
    {r2 : List (Nat × String)} {q : List Task} {d : DestState} {evs : List Ev}
    (h : r.withEvs E = .suspended r2 q d evs) :
    ∃ evs2, r = .suspended r2 q d evs2 ∧ evs = E ++ evs2 := by
  cases r with
  | suspended r3 q2 d2 e =>
    rw [FoldersRes.withEvs] at h
    rcases h with ⟨⟩
    exact ⟨e, rfl, rfl⟩
  | completed q2 d2 e => exact absurd h (by rw [FoldersRes.withEvs]; simp)

theorem copyFoldersStage_none_completed (env : Env) (did : Nat) :
    ∀ rest rear d, ∃ rear2 d2 evs,
      copyFoldersStage env did rest rear none d = (.completed rear2 d2 evs, none) := by
  intro rest
  induction rest with
  | nil => intro rear d; exact ⟨rear, d, [], rfl⟩
  | cons p rest ih =>
    obtain ⟨sid, sname⟩ := p
    intro rear d
    by_cases hop : env.subOpFail did sid = true
    · obtain ⟨rear2, d2, evs, heq⟩ := ih rear d
      refine ⟨rear2, d2,
        [.timeCheck false, .subItem did sid sname, .log "ERROR" sname "folder failed"] ++ evs, ?_⟩
      simp [copyFoldersStage, hop, heq, FoldersRes.withEvsP, FoldersRes.withEvs]
    · rcases hfind : findFolderByName d did sname with _ | c
      · obtain ⟨rear2, d2, evs, heq⟩ :=
          ih (rear ++ [⟨sid, (createFolder d did sname).2, .FILES, none, none⟩])
            (createFolder d did sname).1
        refine ⟨rear2, d2,
          [.timeCheck false, .subItem did sid sname,
            .createdFolder did sname (createFolder d did sname).2,
            .enqueued sid (createFolder d did sname).2] ++ evs, ?_⟩
        simp [copyFoldersStage, hop, hfind, heq, FoldersRes.withEvsP, FoldersRes.withEvs]
      · obtain ⟨rear2, d2, evs, heq⟩ := ih (rear ++ [⟨sid, c, .FILES, none, none⟩]) d
        refine ⟨rear2, d2,
          [.timeCheck false, .subItem did sid sname,
            .reusedFolder did sname c, .enqueued sid c] ++ evs, ?_⟩
        simp [copyFoldersStage, hop, hfind, heq, FoldersRes.withEvsP, FoldersRes.withEvs]

theorem copyFoldersStage_completed_budget (env : Env) (did : Nat) :
    ∀ rest rear b d rear2 d2 evs b2,
      copyFoldersStage env did rest rear b d = (.completed rear2 d2 evs, b2) →
      copyFoldersStage env did rest rear none d = (.completed rear2 d2 evs, none) := by
  intro rest
  induction rest with
  | nil =>
    intro rear b d rear2 d2 evs b2 h
    rw [copyFoldersStage] at h
    rcases h with ⟨⟩
    rfl
  | cons p rest ih =>
    obtain ⟨sid, sname⟩ := p
    intro rear b d rear2 d2 evs b2 h
    rw [copyFoldersStage] at h
    by_cases hb : budgetExpired b = true
    · rw [if_pos hb] at h
      exact absurd h (by simp)
    · rw [if_neg hb] at h
      by_cases hop : env.subOpFail did sid = true
      · rw [if_pos hop] at h
        simp only [FoldersRes.withEvsP, Prod.mk.injEq] at h
        obtain ⟨h1, h2⟩ := h
        obtain ⟨evs2, hr, hevs⟩ := FoldersRes.withEvs_completed_folders h1
        have hrec := ih _ _ _ _ _ _ _ (Prod.ext hr h2)
        subst hevs
        simp [copyFoldersStage, hop, hrec, FoldersRes.withEvsP, FoldersRes.withEvs]
      · rw [if_neg hop] at h
        rcases hfind : findFolderByName d did sname with _ | c <;> rw [hfind] at h <;>
          · simp only [FoldersRes.withEvsP, Prod.mk.injEq] at h
            obtain ⟨h1, h2⟩ := h
            obtain ⟨evs2, hr, hevs⟩ := FoldersRes.withEvs_completed_folders h1
            have hrec := ih _ _ _ _ _ _ _ (Prod.ext hr h2)
            subst hevs
            simp [copyFoldersStage, hop, hfind, hrec, FoldersRes.withEvsP, FoldersRes.withEvs]

theorem copyFoldersStage_suspended_resume (env : Env) (did : Nat) :
    ∀ rest rear b d r rear2 d2 evs b2,
      copyFoldersStage env did rest rear b d = (.suspended r rear2 d2 evs, b2) →
      (copyFoldersStage env did rest rear none d).1.sig =
        (copyFoldersStage env did r rear2 none d2).1.sig := by
  intro rest
  induction rest with
  | nil =>
    intro rear b d r rear2 d2 evs b2 h
    rw [copyFoldersStage] at h
    exact absurd h (by simp)
  | cons p rest ih =>
    obtain ⟨sid, sname⟩ := p
    intro rear b d r rear2 d2 evs b2 h
    rw [copyFoldersStage] at h
    by_cases hb : budgetExpired b = true
    · rw [if_pos hb] at h
      rcases h with ⟨⟩
      rfl
    · rw [if_neg hb] at h
      by_cases hop : env.subOpFail did sid = true
      · rw [if_pos hop] at h
        simp only [FoldersRes.withEvsP, Prod.mk.injEq] at h
        obtain ⟨h1, h2⟩ := h
        obtain ⟨evs2, hr, hevs⟩ := FoldersRes.withEvs_suspended_folders h1
        have hstep := ih _ _ _ _ _ _ _ _ (Prod.ext hr h2)
        refine Eq.trans ?_ hstep
        simp [copyFoldersStage, hop, FoldersRes.withEvsP]
      · rw [if_neg hop] at h
        rcases hfind : findFolderByName d did sname with _ | c <;> rw [hfind] at h <;>
          · simp only [FoldersRes.withEvsP, Prod.mk.injEq] at h
            obtain ⟨h1, h2⟩ := h
            obtain ⟨evs2, hr, hevs⟩ := FoldersRes.withEvs_suspended_folders h1
            have hstep := ih _ _ _ _ _ _ _ _ (Prod.ext hr h2)
            refine Eq.trans ?_ hstep
            simp [copyFoldersStage, hop, hfind, FoldersRes.withEvsP]

theorem copyFilesStage_destLe (env : Env) (did : Nat) :
    ∀ rest b tc d res b2,
      copyFilesStage env did rest b tc d = (res, b2) →
      DestLe d res.sig.2.2 ∧ (destInv d = true → destInv res.sig.2.2 = true) := by
  intro rest
  induction rest with
  | nil =>
    intro b tc d res b2 h
    rw [copyFilesStage] at h
    rcases h with ⟨⟩
    exact ⟨DestLe.rfl d, fun hv => hv⟩
  | cons n rest ih =>
    intro b tc d res b2 h
    rw [copyFilesStage] at h
    by_cases hb : budgetExpired b = true
    · rw [if_pos hb] at h
      rcases h with ⟨⟩
      exact ⟨DestLe.rfl d, fun hv => hv⟩
    · rw [if_neg hb] at h
      by_cases hop : env.fileOpFail did n = true
      · rw [if_pos hop] at h
        rcases hrec : copyFilesStage env did rest (budgetTick b) (tc + 1) d with ⟨res2, b3⟩
        rw [hrec] at h
        simp only [FilesRes.withEvsP, Prod.mk.injEq] at h
        obtain ⟨h1, _⟩ := h
        subst h1
        have := ih _ _ _ _ _ hrec
        simpa using this
      · rw [if_neg hop] at h
        by_cases hex : fileExists d did n = true
        · rw [if_pos hex] at h
          rcases hrec : copyFilesStage env did rest (budgetTick b) (tc + 1) d with ⟨res2, b3⟩
          rw [hrec] at h
          simp only [FilesRes.withEvsP, Prod.mk.injEq] at h
          obtain ⟨h1, _⟩ := h
          subst h1
          have := ih _ _ _ _ _ hrec
          simpa using this
        · rw [if_neg hex] at h
          rcases hrec : copyFilesStage env did rest (budgetTick b) (tc + 1)
              (destAddFile d did n) with ⟨res2, b3⟩
          rw [hrec] at h
          simp only [FilesRes.withEvsP, Prod.mk.injEq] at h
          obtain ⟨h1, _⟩ := h
          subst h1
          have hrec2 := ih _ _ _ _ _ hrec
          rw [FilesRes.sig_withEvs_files]
          refine ⟨DestLe.trans (destLe_addFile d did n) hrec2.1, fun hv => ?_⟩
          exact hrec2.2 (destInv_addFile hv did n)

theorem copyFoldersStage_destLe (env : Env) (did : Nat) :
    ∀ rest rear b d res b2,
      copyFoldersStage env did rest rear b d = (res, b2) → destInv d = true →
      DestLe d res.sig.2.2 ∧ destInv res.sig.2.2 = true := by
  intro rest
  induction rest with
  | nil =>
    intro rear b d res b2 h hv
    rw [copyFoldersStage] at h
    rcases h with ⟨⟩
    exact ⟨DestLe.rfl d, hv⟩
  | cons p rest ih =>
    obtain ⟨sid, sname⟩ := p
    intro rear b d res b2 h hv
    rw [copyFoldersStage] at h
    by_cases hb : budgetExpired b = true
    · rw [if_pos hb] at h
      rcases h with ⟨⟩
      exact ⟨DestLe.rfl d, hv⟩
    · rw [if_neg hb] at h
      by_cases hop : env.subOpFail did sid = true
      · rw [if_pos hop] at h
        rcases hrec : copyFoldersStage env did rest rear (budgetTick b) d with ⟨res2, b3⟩
        rw [hrec] at h
        simp only [FoldersRes.withEvsP, Prod.mk.injEq] at h
        obtain ⟨h1, _⟩ := h
        subst h1
        have := ih _ _ _ _ _ hrec hv
        simpa using this
      · rw [if_neg hop] at h
        rcases hfind : findFolderByName d did sname with _ | c
        · rw [hfind] at h
          rcases hrec : copyFoldersStage env did rest
              (rear ++ [⟨sid, (createFolder d did sname).2, .FILES, none, none⟩])
              (budgetTick b) (createFolder d did sname).1 with ⟨res2, b3⟩
          simp only [hrec, FoldersRes.withEvsP, Prod.mk.injEq] at h
          obtain ⟨h1, _⟩ := h
          subst h1
          have hrec2 := ih _ _ _ _ _ hrec (destInv_createFolder hv did sname)
          rw [FoldersRes.sig_withEvs_folders]
          exact ⟨DestLe.trans (destLe_createFolder d did sname hv) hrec2.1, hrec2.2⟩
        · rw [hfind] at h
          rcases hrec : copyFoldersStage env did rest
              (rear ++ [⟨sid, c, .FILES, none, none⟩]) (budgetTick b) d with ⟨res2, b3⟩
          simp only [hrec, FoldersRes.withEvsP, Prod.mk.injEq] at h
          obtain ⟨h1, _⟩ := h
          subst h1
          have := ih _ _ _ _ _ hrec hv
          simpa using this

/-- A budget-limited execution that completes performs exactly the same
run as the never-expiring one: every check it passed, the unbudgeted run
passes identically, and the guard never fired. -/
theorem processQueue_done_budget (env : Env) (drive : SrcDrive) :
    ∀ fuel q b tc d core msg evs,
      processQueue env drive fuel q b tc d = .done core msg evs →
      processQueue env drive fuel q none tc d = .done core msg evs := by
  intro fuel
  induction fuel with
  | zero =>
    intro q b tc d core msg evs h
    exact absurd h (by rw [processQueue]; simp)
  | succ fuel ih =>
    intro q b tc d core msg evs h
    cases q with
    | nil => exact h
    | cons t tail =>
      rcases hsrc : lookupSrc drive t.sourceId with _ | sf
      · rw [processQueue_access env drive fuel t tail b tc d (Or.inl hsrc)] at h
        obtain ⟨evs2, hrec, hevs⟩ := RunOut.withEvs_done_run h
        subst hevs
        rw [processQueue_access env drive fuel t tail none tc d (Or.inl hsrc),
          ih _ _ _ _ _ _ _ hrec]
        rfl
      · rcases hdst : lookupDest d t.destId with _ | df
        · rw [processQueue_access env drive fuel t tail b tc d (Or.inr hdst)] at h
          obtain ⟨evs2, hrec, hevs⟩ := RunOut.withEvs_done_run h
          subst hevs
          rw [processQueue_access env drive fuel t tail none tc d (Or.inr hdst),
            ih _ _ _ _ _ _ _ hrec]
          rfl
        · cases hst : t.stage with
          | FILES =>
            rcases hfl : fileListing env sf t with _ | rest
            · rw [processQueue_files_nolist env drive fuel t tail b tc d sf df
                hsrc hdst hst hfl] at h
              obtain ⟨evs2, hrec, hevs⟩ := RunOut.withEvs_done_run h
              subst hevs
              rw [processQueue_files_nolist env drive fuel t tail none tc d sf df
                hsrc hdst hst hfl, ih _ _ _ _ _ _ _ hrec]
              rfl
            · rcases hloop : copyFilesStage env t.destId rest b tc d with ⟨res, b2⟩
              cases res with
              | suspended r c d2 evsL =>
                rw [processQueue_files_suspended env drive fuel t tail b tc d sf df
                  rest r c d2 evsL b2 hsrc hdst hst hfl hloop] at h
                exact absurd h (by simp)
              | completed c d2 evsL =>
                rw [processQueue_files_completed env drive fuel t tail b tc d sf df
                  rest c d2 evsL b2 hsrc hdst hst hfl hloop] at h
                obtain ⟨evs2, hrec, hevs⟩ := RunOut.withEvs_done_run h
                subst hevs
                rw [processQueue_files_completed env drive fuel t tail none tc d sf df
                  rest c d2 evsL none hsrc hdst hst hfl
                  (copyFilesStage_completed_budget env t.destId rest b tc d c d2 evsL b2 hloop),
                  ih _ _ _ _ _ _ _ hrec]
                rfl
          | FOLDERS =>
            rcases hfl : folderListing env sf t with _ | rest
            · rw [processQueue_folders_nolist env drive fuel t tail b tc d sf df
                hsrc hdst hst hfl] at h
              obtain ⟨evs2, hrec, hevs⟩ := RunOut.withEvs_done_run h
              subst hevs
              rw [processQueue_folders_nolist env drive fuel t tail none tc d sf df
                hsrc hdst hst hfl, ih _ _ _ _ _ _ _ hrec]
              rfl
            · rcases hloop : copyFoldersStage env t.destId rest tail b d with ⟨res, b2⟩
              cases res with
              | suspended r rear d2 evsL =>
                rw [processQueue_folders_suspended env drive fuel t tail b tc d sf df
                  rest r rear d2 evsL b2 hsrc hdst hst hfl hloop] at h
                exact absurd h (by simp)
              | completed rear d2 evsL =>
                rw [processQueue_folders_completed env drive fuel t tail b tc d sf df
                  rest rear d2 evsL b2 hsrc hdst hst hfl hloop] at h
                obtain ⟨evs2, hrec, hevs⟩ := RunOut.withEvs_done_run h
                subst hevs
                rw [processQueue_folders_completed env drive fuel t tail none tc d sf df
                  rest rear d2 evsL none hsrc hdst hst hfl
                  (copyFoldersStage_completed_budget env t.destId rest tail b d
                    rear d2 evsL b2 hloop),
                  ih _ _ _ _ _ _ _ hrec]
                rfl

@[simp] theorem RunOut.doneOut_withEvs (e : List Ev) (r : RunOut) :
    (r.withEvs e).doneOut? = r.doneOut? := by
  cases r <;> rfl

/-- Resumption refinement: when a budget-limited execution suspends (with
cursors that stay valid), finishing the job from the persisted state with
no further interruption reaches exactly the terminal core and status that
an uninterrupted execution reaches. -/
theorem processQueue_paused_resume (env : Env) (drive : SrcDrive)
    (hnf : ∀ i, env.fileCursorStale i = false)
    (hnd : ∀ i, env.folderCursorStale i = false) :
    ∀ fuel q b tc d core evs,
      destInv d = true →
      processQueue env drive fuel q b tc d = .paused core evs →
      ∀ fuel2 core2 msg2 evs2,
        processQueue env drive fuel2 core.queue none core.totalCopied core.dest =
          .done core2 msg2 evs2 →
        ∃ fuel3,
          (processQueue env drive fuel3 q none tc d).doneOut? = some (core2, msg2) := by
  intro fuel
  induction fuel with
  | zero =>
    intro q b tc d core evs hv h
    exact absurd h (by rw [processQueue]; simp)
  | succ fuel ih =>
    intro q b tc d core evs hv h fuel2 core2 msg2 evs2 h2
    cases q with
    | nil => exact absurd h (by rw [processQueue_nil]; simp)
    | cons t tail =>
      rcases hsrc : lookupSrc drive t.sourceId with _ | sf
      · rw [processQueue_access env drive fuel t tail b tc d (Or.inl hsrc)] at h
        obtain ⟨evsP, hrec, hevs⟩ := RunOut.withEvs_paused h
        obtain ⟨fuel3, h3⟩ := ih tail b tc d core evsP hv hrec fuel2 core2 msg2 evs2 h2
        refine ⟨fuel3 + 1, ?_⟩
        rw [processQueue_access env drive fuel3 t tail none tc d (Or.inl hsrc),
          RunOut.doneOut_withEvs]
        exact h3
      · rcases hdst : lookupDest d t.destId with _ | df
        · rw [processQueue_access env drive fuel t tail b tc d (Or.inr hdst)] at h
          obtain ⟨evsP, hrec, hevs⟩ := RunOut.withEvs_paused h
          obtain ⟨fuel3, h3⟩ := ih tail b tc d core evsP hv hrec fuel2 core2 msg2 evs2 h2
          refine ⟨fuel3 + 1, ?_⟩
          rw [processQueue_access env drive fuel3 t tail none tc d (Or.inr hdst),
            RunOut.doneOut_withEvs]
          exact h3
        · cases hst : t.stage with
          | FILES =>
            rcases hfl : fileListing env sf t with _ | rest
            · rw [processQueue_files_nolist env drive fuel t tail b tc d sf df
                hsrc hdst hst hfl] at h
              obtain ⟨evsP, hrec, hevs⟩ := RunOut.withEvs_paused h
              obtain ⟨fuel3, h3⟩ :=
                ih _ b tc d core evsP hv hrec fuel2 core2 msg2 evs2 h2
              refine ⟨fuel3 + 1, ?_⟩
              rw [processQueue_files_nolist env drive fuel3 t tail none tc d sf df
                hsrc hdst hst hfl, RunOut.doneOut_withEvs]
              exact h3
            · rcases hloop : copyFilesStage env t.destId rest b tc d with ⟨res, b2⟩
              cases res with
              | completed c d2 evsL =>
                rw [processQueue_files_completed env drive fuel t tail b tc d sf df
                  rest c d2 evsL b2 hsrc hdst hst hfl hloop] at h
                obtain ⟨evsP, hrec, hevs⟩ := RunOut.withEvs_paused h
                have hv2 : destInv d2 = true :=
                  (copyFilesStage_destLe env t.destId rest b tc d
                    (.completed c d2 evsL) b2 hloop).2 hv
                obtain ⟨fuel3, h3⟩ :=
                  ih _ b2 c d2 core evsP hv2 hrec fuel2 core2 msg2 evs2 h2
                refine ⟨fuel3 + 1, ?_⟩
                rw [processQueue_files_completed env drive fuel3 t tail none tc d sf df
                  rest c d2 evsL none hsrc hdst hst hfl
                  (copyFilesStage_completed_budget env t.destId rest b tc d c d2 evsL b2 hloop),
                  RunOut.doneOut_withEvs]
                exact h3
              | suspended r c d2 evsL =>
                rw [processQueue_files_suspended env drive fuel t tail b tc d sf df
                  rest r c d2 evsL b2 hsrc hdst hst hfl hloop] at h
                rcases h with ⟨⟩
                replace h2 : processQueue env drive fuel2
                    ({t with fileToken := some r} :: tail) none c d2 =
                    .done core2 msg2 evs2 := h2
                cases fuel2 with
                | zero => exact absurd h2 (by rw [processQueue]; simp)
                | succ f2 =>
                  have hDL : DestLe d d2 :=
                    (copyFilesStage_destLe env t.destId rest b tc d
                      (.suspended r c d2 evsL) b2 hloop).1
                  obtain ⟨df2, hdf2, _, _⟩ := hDL.2 t.destId df hdst
                  have hfl2 : fileListing env sf {t with fileToken := some r} = some r := by
                    simp [fileListing, hnf]
                  obtain ⟨cB, dB, evsB, hloopB⟩ :=
                    copyFilesStage_none_completed env t.destId r c d2
                  rw [processQueue_files_completed env drive f2
                    ({t with fileToken := some r}) tail none c d2 sf df2 r cB dB evsB none
                    hsrc hdf2 (by simp [hst]) hfl2 hloopB] at h2
                  obtain ⟨evsR, hrec2, hevs2⟩ := RunOut.withEvs_done_run h2
                  replace hrec2 : processQueue env drive f2
                      ({t with stage := .FOLDERS, fileToken := none} :: tail) none cB dB =
                      .done core2 msg2 evsR := hrec2
                  have hsig := copyFilesStage_suspended_resume env t.destId
                    rest b tc d r c d2 evsL b2 hloop
                  obtain ⟨cA, dA, evsA, hloopA⟩ :=
                    copyFilesStage_none_completed env t.destId rest tc d
                  rw [hloopA, hloopB] at hsig
                  simp only [FilesRes.sig, Prod.mk.injEq] at hsig
                  obtain ⟨hcc, hdd⟩ := hsig.2
                  subst hcc
                  subst hdd
                  refine ⟨f2 + 1, ?_⟩
                  rw [processQueue_files_completed env drive f2 t tail none tc d sf df
                    rest cA dA evsA none hsrc hdst hst hfl hloopA, hrec2]
                  rfl
          | FOLDERS =>
            rcases hfl : folderListing env sf t with _ | rest
            · rw [processQueue_folders_nolist env drive fuel t tail b tc d sf df
                hsrc hdst hst hfl] at h
              obtain ⟨evsP, hrec, hevs⟩ := RunOut.withEvs_paused h
              obtain ⟨fuel3, h3⟩ :=
                ih _ b tc d core evsP hv hrec fuel2 core2 msg2 evs2 h2
              refine ⟨fuel3 + 1, ?_⟩
              rw [processQueue_folders_nolist env drive fuel3 t tail none tc d sf df
                hsrc hdst hst hfl, RunOut.doneOut_withEvs]
              exact h3
            · rcases hloop : copyFoldersStage env t.destId rest tail b d with ⟨res, b2⟩
              cases res with
              | completed rear d2 evsL =>
                rw [processQueue_folders_completed env drive fuel t tail b tc d sf df
                  rest rear d2 evsL b2 hsrc hdst hst hfl hloop] at h
                obtain ⟨evsP, hrec, hevs⟩ := RunOut.withEvs_paused h
                have hv2 : destInv d2 = true :=
                  ((copyFoldersStage_destLe env t.destId rest tail b d
                    (.completed rear d2 evsL) b2 hloop) hv).2
                obtain ⟨fuel3, h3⟩ :=
                  ih _ b2 tc d2 core evsP hv2 hrec fuel2 core2 msg2 evs2 h2
                refine ⟨fuel3 + 1, ?_⟩
                rw [processQueue_folders_completed env drive fuel3 t tail none tc d sf df
                  rest rear d2 evsL none hsrc hdst hst hfl
                  (copyFoldersStage_completed_budget env t.destId rest tail b d
                    rear d2 evsL b2 hloop),
                  RunOut.doneOut_withEvs]
                exact h3
              | suspended r rear d2 evsL =>
                rw [processQueue_folders_suspended env drive fuel t tail b tc d sf df
                  rest r rear d2 evsL b2 hsrc hdst hst hfl hloop] at h
                rcases h with ⟨⟩
                replace h2 : processQueue env drive fuel2
                    ({t with folderToken := some r} :: rear) none tc d2 =
                    .done core2 msg2 evs2 := h2
                cases fuel2 with
                | zero => exact absurd h2 (by rw [processQueue]; simp)
                | succ f2 =>
                  have hDL : DestLe d d2 :=
                    ((copyFoldersStage_destLe env t.destId rest tail b d
                      (.suspended r rear d2 evsL) b2 hloop) hv).1
                  obtain ⟨df2, hdf2, _, _⟩ := hDL.2 t.destId df hdst
                  have hfl2 : folderListing env sf {t with folderToken := some r} = some r := by
                    simp [folderListing, hnd]
                  obtain ⟨rearB, dB, evsB, hloopB⟩ :=
                    copyFoldersStage_none_completed env t.destId r rear d2
                  rw [processQueue_folders_completed env drive f2
                    ({t with folderToken := some r}) rear none tc d2 sf df2 r rearB dB evsB none
                    hsrc hdf2 (by simp [hst]) hfl2 hloopB] at h2
                  obtain ⟨evsR, hrec2, hevs2⟩ := RunOut.withEvs_done_run h2
                  have hsig := copyFoldersStage_suspended_resume env t.destId
                    rest tail b d r rear d2 evsL b2 hloop
                  obtain ⟨rearA, dA, evsA, hloopA⟩ :=
                    copyFoldersStage_none_completed env t.destId rest tail d
                  rw [hloopA, hloopB] at hsig
                  simp only [FoldersRes.sig, Prod.mk.injEq] at hsig
                  obtain ⟨hcc, hdd⟩ := hsig.2
                  subst hcc
                  subst hdd
                  refine ⟨f2 + 1, ?_⟩
                  rw [processQueue_folders_completed env drive f2 t tail none tc d sf df
                    rest rearA dA evsA none hsrc hdst hst hfl hloopA, hrec2]
                  rfl

@[simp] theorem RunOut.core_withEvs (e : List Ev) (r : RunOut) :
    (r.withEvs e).core? = r.core? := by
  cases r <;> rfl

/-- Every execution only grows the destination and preserves its
well-formedness. -/
theorem processQueue_destInv (env : Env) (drive : SrcDrive) :
    ∀ fuel q b tc d, destInv d = true →
      ∀ core, (processQueue env drive fuel q b tc d).core? = some core →
      destInv core.dest = true ∧ DestLe d core.dest := by
  intro fuel
  induction fuel with
  | zero =>
    intro q b tc d hv core h
    exact absurd h (by rw [processQueue]; simp [RunOut.core?])
  | succ fuel ih =>
    intro q b tc d hv core h
    cases q with
    | nil =>
      rw [processQueue_nil] at h
      rcases h with ⟨⟩
      exact ⟨hv, DestLe.rfl d⟩
    | cons t tail =>
      rcases hsrc : lookupSrc drive t.sourceId with _ | sf
      · rw [processQueue_access env drive fuel t tail b tc d (Or.inl hsrc),
          RunOut.core_withEvs] at h
        exact ih tail b tc d hv core h
      · rcases hdst : lookupDest d t.destId with _ | df
        · rw [processQueue_access env drive fuel t tail b tc d (Or.inr hdst),
            RunOut.core_withEvs] at h
          exact ih tail b tc d hv core h
        · cases hst : t.stage with
          | FILES =>
            rcases hfl : fileListing env sf t with _ | rest
            · rw [processQueue_files_nolist env drive fuel t tail b tc d sf df
                hsrc hdst hst hfl, RunOut.core_withEvs] at h
              exact ih _ b tc d hv core h
            · rcases hloop : copyFilesStage env t.destId rest b tc d with ⟨res, b2⟩
              cases res with
              | suspended r c d2 evsL =>
                rw [processQueue_files_suspended env drive fuel t tail b tc d sf df
                  rest r c d2 evsL b2 hsrc hdst hst hfl hloop] at h
                rcases h with ⟨⟩
                have hl := copyFilesStage_destLe env t.destId rest b tc d
                  (.suspended r c d2 evsL) b2 hloop
                exact ⟨hl.2 hv, hl.1⟩
              | completed c d2 evsL =>
                rw [processQueue_files_completed env drive fuel t tail b tc d sf df
                  rest c d2 evsL b2 hsrc hdst hst hfl hloop, RunOut.core_withEvs] at h
                have hl := copyFilesStage_destLe env t.destId rest b tc d
                  (.completed c d2 evsL) b2 hloop
                obtain ⟨hv2, hle2⟩ := ih _ b2 c d2 (hl.2 hv) core h
                exact ⟨hv2, DestLe.trans hl.1 hle2⟩
          | FOLDERS =>
            rcases hfl : folderListing env sf t with _ | rest
            · rw [processQueue_folders_nolist env drive fuel t tail b tc d sf df
                hsrc hdst hst hfl, RunOut.core_withEvs] at h
              exact ih _ b tc d hv core h
            · rcases hloop : copyFoldersStage env t.destId rest tail b d with ⟨res, b2⟩
              cases res with
              | suspended r rear d2 evsL =>
                rw [processQueue_folders_suspended env drive fuel t tail b tc d sf df
                  rest r rear d2 evsL b2 hsrc hdst hst hfl hloop] at h
                rcases h with ⟨⟩
                have hl := (copyFoldersStage_destLe env t.destId rest tail b d
                  (.suspended r rear d2 evsL) b2 hloop) hv
                exact ⟨hl.2, hl.1⟩
              | completed rear d2 evsL =>
                rw [processQueue_folders_completed env drive fuel t tail b tc d sf df
                  rest rear d2 evsL b2 hsrc hdst hst hfl hloop, RunOut.core_withEvs] at h
                have hl := (copyFoldersStage_destLe env t.destId rest tail b d
                  (.completed rear d2 evsL) b2 hloop) hv
                obtain ⟨hv2, hle2⟩ := ih _ b2 tc d2 hl.2 core h
                exact ⟨hv2, DestLe.trans hl.1 hle2⟩

theorem RunOut.isGas_of_doneOut {r : RunOut} {o : CopyCore × String}
    (h : r.doneOut? = some o) : r.isGas = false := by
  cases r <;> simp_all [RunOut.doneOut?, RunOut.isGas]

/-- Terminal results do not depend on the fuel bound. -/
theorem processQueue_done_unique (env : Env) (drive : SrcDrive) {f1 f2 : Nat}
    {q : List Task} {b : Option Nat} {tc : Nat} {d : DestState}
    {o1 o2 : CopyCore × String}
    (h1 : (processQueue env drive f1 q b tc d).doneOut? = some o1)
    (h2 : (processQueue env drive f2 q b tc d).doneOut? = some o2) : o1 = o2 := by
  rcases le_total f1 f2 with hle | hle
  · rw [processQueue_mono env drive hle (RunOut.isGas_of_doneOut h1), h1] at h2
    rcases h2 with ⟨⟩
    rfl
  · rw [processQueue_mono env drive hle (RunOut.isGas_of_doneOut h2), h2] at h1
    rcases h1 with ⟨⟩
    rfl

/-- Session composition: a sequence of budget-limited executions with
resumption that reaches a terminal state reaches the very state an
uninterrupted execution reaches. -/
theorem runSessions_refine (env : Env) (drive : SrcDrive)
    (hnf : ∀ i, env.fileCursorStale i = false)
    (hnd : ∀ i, env.folderCursorStale i = false) :
    ∀ ks fuel q tc d core msg,
      destInv d = true →
      runSessions env drive fuel ks q tc d = some (core, msg) →
      ∃ fuel3, (processQueue env drive fuel3 q none tc d).doneOut? = some (core, msg) := by
  intro ks
  induction ks with
  | nil =>
    intro fuel q tc d core msg hv h
    exact absurd h (by rw [runSessions]; simp)
  | cons k ks ih =>
    intro fuel q tc d core msg hv h
    rw [runSessions] at h
    cases hrun : processQueue env drive fuel q (some k) tc d with
    | done c m e =>
      rw [hrun] at h
      rcases h with ⟨⟩
      refine ⟨fuel, ?_⟩
      rw [processQueue_done_budget env drive fuel q (some k) tc d _ _ _ hrun]
      rfl
    | paused c e =>
      rw [hrun] at h
      have hvc : destInv c.dest = true :=
        (processQueue_destInv env drive fuel q (some k) tc d hv c (by rw [hrun]; rfl)).1
      obtain ⟨fuelR, hR⟩ := ih fuel c.queue c.totalCopied c.dest core msg hvc h
      cases hout : processQueue env drive fuelR c.queue none c.totalCopied c.dest with
      | done c2 m2 e2 =>
        rw [hout] at hR
        rcases hR with ⟨⟩
        exact processQueue_paused_resume env drive hnf hnd fuel q (some k) tc d c e hv hrun
          fuelR _ _ _ hout
      | paused c2 e2 =>
        rw [hout] at hR
        exact absurd hR (by simp [RunOut.doneOut?])
      | outOfGas e2 =>
        rw [hout] at hR
        exact absurd hR (by simp [RunOut.doneOut?])
    | outOfGas e =>
      rw [hrun] at h
      exact absurd h (by simp)

/-! ### Fault-free runs: what a completed stage guarantees -/

@[simp] theorem Env.ok_listFilesFail (i : Nat) : Env.ok.listFilesFail i = false := rfl

@[simp] theorem Env.ok_listFoldersFail (i : Nat) : Env.ok.listFoldersFail i = false := rfl

@[simp] theorem Env.ok_fileCursorStale (i : Nat) : Env.ok.fileCursorStale i = false := rfl

@[simp] theorem Env.ok_folderCursorStale (i : Nat) : Env.ok.folderCursorStale i = false := rfl

@[simp] theorem Env.ok_fileOpFail (i : Nat) (n : String) : Env.ok.fileOpFail i n = false := rfl

@[simp] theorem Env.ok_subOpFail (i j : Nat) : Env.ok.subOpFail i j = false := rfl

theorem fileListing_ok (sf : SrcFolder) (t : Task) (h : t.fileToken = none) :
    fileListing Env.ok sf t = some sf.files := by
  rw [fileListing, h]
  simp

theorem folderListing_ok (sf : SrcFolder) (t : Task) (h : t.folderToken = none) :
    folderListing Env.ok sf t = some sf.subs := by
  rw [folderListing, h]
  simp

theorem fileExists_addFile_self {d : DestState} {did : Nat} {df : DestFolder}
    (h : lookupDest d did = some df) (n : String) :
    fileExists (destAddFile d did n) did n = true := by
  unfold fileExists
  rw [lookupDest_destAddFile, h]
  simp [List.contains_eq_any_beq, List.any_append]

theorem find?_append_none {α : Type} (p : α → Bool) (l1 l2 : List α)
    (h : l1.find? p = none) : (l1 ++ l2).find? p = l2.find? p := by
  induction l1 with
  | nil => simp
  | cons a l ih =>
    rw [List.cons_append]
    by_cases ha : p a
    · rw [List.find?_cons_of_pos _ ha] at h
      cases h
    · rw [List.find?_cons_of_neg _ ha] at h
      rw [List.find?_cons_of_neg _ ha]
      exact ih h

theorem findFolderByName_createFolder_self {d : DestState} {did : Nat} {df : DestFolder}
    (hinv : destInv d = true) (hd : lookupDest d did = some df) (nm : String)
    (hfind : findFolderByName d did nm = none) :
    findFolderByName (createFolder d did nm).1 did nm = some d.nextId := by
  have hne : did ≠ d.nextId := Nat.ne_of_lt (destInv_lt hinv hd)
  unfold findFolderByName at hfind ⊢
  rw [lookupDest_createFolder d did nm did hne, hd]
  rw [hd] at hfind
  have hfind0 : (df.subs.find? (fun p => p.1 == nm)).map (fun p => p.2) = none := hfind
  have hfind' : df.subs.find? (fun p => p.1 == nm) = none := by
    rcases hx : df.subs.find? (fun p => p.1 == nm) with _ | p
    · exact hx
    · rw [hx] at hfind0; simp at hfind0
  simp only [Option.map_some, if_pos rfl]
  show ((df.subs ++ [(nm, d.nextId)]).find? (fun p => p.1 == nm)).map
    (fun p => p.2) = some d.nextId
  rw [find?_append_none _ _ _ hfind', List.find?_cons_of_pos _ (by simp)]
  rfl

theorem srcClosed_sub {drive : SrcDrive} {sid : Nat} {sf : SrcFolder}
    (hclosed : srcClosed drive = true) (hs : lookupSrc drive sid = some sf)
    {p : Nat × String} (hp : p ∈ sf.subs) :
    ∃ g, lookupSrc drive p.1 = some g := by
  unfold lookupSrc at hs
  rcases hfind : drive.find? (fun q => q.1 == sid) with _ | q
  · rw [hfind] at hs; simp at hs
  · rw [hfind] at hs
    have hqf : q.2 = sf := by simpa using hs
    have hmem : q ∈ drive := List.mem_of_find?_eq_some hfind
    have hall := (List.all_eq_true.mp hclosed) q hmem
    have := (List.all_eq_true.mp hall) p (hqf ▸ hp)
    rcases Option.isSome_iff_exists.mp (by simpa using this) with ⟨g, hg⟩
    exact ⟨g, hg⟩

theorem destInv_find_isSome {d : DestState} {did : Nat} {df : DestFolder} {nm : String}
    {c : Nat} (hinv : destInv d = true) (hd : lookupDest d did = some df)
    (hfind : findFolderByName d did nm = some c) :
    (lookupDest d c).isSome = true := by
  unfold findFolderByName at hfind
  rw [hd] at hfind
  have hfind0 : (df.subs.find? (fun p => p.1 == nm)).map (fun p => p.2) = some c := hfind
  rcases hx : df.subs.find? (fun p => p.1 == nm) with _ | p
  · rw [hx] at hfind0; simp at hfind0
  · rw [hx] at hfind0
    have hpc : p.2 = c := by simpa using hfind0
    have hmem : p ∈ df.subs := List.mem_of_find?_eq_some hx
    have := destInv_sub hinv hd (show (p.1, c) ∈ df.subs by rw [← hpc]; exact hmem)
    exact this.1

/-- After a fault-free completed FILES stage, every listed file name
exists in the destination folder (it was either skipped as present or
just copied). -/
theorem copyFilesStage_ok_post (did : Nat) :
    ∀ rest tc d df, lookupDest d did = some df →
      ∀ c d2 evs b2, copyFilesStage Env.ok did rest none tc d = (.completed c d2 evs, b2) →
      ∀ n ∈ rest, fileExists d2 did n = true := by
  intro rest
  induction rest with
  | nil => intro tc d df hd c d2 evs b2 h n hn; cases hn
  | cons n rest ih =>
    intro tc d df hd c d2 evs b2 h m hm
    rw [copyFilesStage, if_neg (by simp), if_neg (by simp)] at h
    by_cases hex : fileExists d did n = true
    · rw [if_pos hex] at h
      rcases hrec : copyFilesStage Env.ok did rest (budgetTick none) (tc + 1) d with ⟨res, b3⟩
      rw [hrec] at h
      simp only [FilesRes.withEvsP, Prod.mk.injEq] at h
      obtain ⟨h1, h2⟩ := h
      obtain ⟨evs2, hr, hevs⟩ := FilesRes.withEvs_completed_files h1
      have hle : DestLe d d2 := by
        have := (copyFilesStage_destLe Env.ok did rest (budgetTick none) (tc + 1) d res b3
          hrec).1
        rw [hr] at this
        exact this
      rcases List.mem_cons.mp hm with hm | hm
      · subst hm
        exact fileExists_mono hle hex
      · exact ih (tc + 1) d df hd c d2 evs2 b3 (by rw [← hr]; simpa using hrec) m hm
    · rw [if_neg hex] at h
      rcases hrec : copyFilesStage Env.ok did rest (budgetTick none) (tc + 1)
          (destAddFile d did n) with ⟨res, b3⟩
      rw [hrec] at h
      simp only [FilesRes.withEvsP, Prod.mk.injEq] at h
      obtain ⟨h1, h2⟩ := h
      obtain ⟨evs2, hr, hevs⟩ := FilesRes.withEvs_completed_files h1
      have hle : DestLe (destAddFile d did n) d2 := by
        have := (copyFilesStage_destLe Env.ok did rest (budgetTick none) (tc + 1)
          (destAddFile d did n) res b3 hrec).1
        rw [hr] at this
        exact this
      rcases List.mem_cons.mp hm with hm | hm
      · subst hm
        exact fileExists_mono hle (fileExists_addFile_self hd m)
      · have hd' : lookupDest (destAddFile d did n) did = some ⟨df.files ++ [n], df.subs⟩ := by
          rw [lookupDest_destAddFile, hd]
          simp
        exact ih (tc + 1) (destAddFile d did n) _ hd' c d2 evs2 b3
          (by rw [← hr]; simpa using hrec) m hm

/-- After a fault-free completed FOLDERS stage: every listed subfolder has
a same-named destination subfolder (found or created) whose id resolves,
and a fresh child task for it was appended; the queue behind the head only
grows, and only by fresh FILES tasks. -/
theorem copyFoldersStage_ok_post (did : Nat) :
    ∀ rest rear d df, destInv d = true → lookupDest d did = some df →
      ∀ rear2 d2 evs b2,
        copyFoldersStage Env.ok did rest rear none d = (.completed rear2 d2 evs, b2) →
      (∀ p ∈ rest, ∃ c, findFolderByName d2 did p.2 = some c ∧
          (lookupDest d2 c).isSome = true ∧ (⟨p.1, c, .FILES, none, none⟩ : Task) ∈ rear2) ∧
      (∀ t0 ∈ rear, t0 ∈ rear2) ∧
      (∀ t0 ∈ rear2, t0 ∈ rear ∨ ∃ s c, t0 = (⟨s, c, .FILES, none, none⟩ : Task)) := by
  intro rest
  induction rest with
  | nil =>
    intro rear d df hv hd rear2 d2 evs b2 h
    rw [copyFoldersStage] at h
    rcases h with ⟨⟩
    exact ⟨fun p hp => absurd hp (by simp), fun t0 ht => ht, fun t0 ht => Or.inl ht⟩
  | cons p rest ih =>
    obtain ⟨sid, sname⟩ := p
    intro rear d df hv hd rear2 d2 evs b2 h
    rw [copyFoldersStage, if_neg (by simp), if_neg (by simp)] at h
    rcases hfind : findFolderByName d did sname with _ | c0
    · rw [hfind] at h
      rcases hrec : copyFoldersStage Env.ok did rest
          (rear ++ [⟨sid, (createFolder d did sname).2, .FILES, none, none⟩])
          (budgetTick none) (createFolder d did sname).1 with ⟨res, b3⟩
      simp only [hrec, FoldersRes.withEvsP, Prod.mk.injEq] at h
      obtain ⟨h1, h2⟩ := h
      obtain ⟨evs2, hr, hevs⟩ := FoldersRes.withEvs_completed_folders h1
      have hne : did ≠ d.nextId := Nat.ne_of_lt (destInv_lt hv hd)
      have hd' : lookupDest (createFolder d did sname).1 did =
          some ⟨df.files, df.subs ++ [(sname, d.nextId)]⟩ := by
        rw [lookupDest_createFolder d did sname did hne, hd]
        simp
      have hv' : destInv (createFolder d did sname).1 = true :=
        destInv_createFolder hv did sname
      obtain ⟨hc1, hc2, hc3⟩ := ih _ _ _ hv' hd' rear2 d2 evs2 b3 (by rw [← hr]; simpa using hrec)
      have hle : DestLe (createFolder d did sname).1 d2 := by
        have := ((copyFoldersStage_destLe Env.ok did rest _ (budgetTick none)
          (createFolder d did sname).1 res b3 hrec) hv').1
        rw [hr] at this
        exact this
      refine ⟨?_, ?_, fun t0 ht => ?_⟩
      · intro p hp
        rcases List.mem_cons.mp hp with hp | hp
        · subst hp
          refine ⟨d.nextId, ?_, ?_, ?_⟩
          · exact findFolderByName_mono hle
              (findFolderByName_createFolder_self hv hd sname hfind)
          · exact lookupDest_isSome_mono hle
              (by rw [lookupDest_createFolder_new]; rfl)
          · exact hc2 _ (List.mem_append_right _ (by simp [createFolder]))
        · exact hc1 p hp
      · intro t0 ht
        exact hc2 t0 (List.mem_append_left _ ht)
      · rcases hc3 t0 ht with hin | hfresh
        · rcases List.mem_append.mp hin with hin | hin
          · exact Or.inl hin
          · exact Or.inr ⟨sid, (createFolder d did sname).2, by simpa using hin⟩
        · exact Or.inr hfresh
    · rw [hfind] at h
      rcases hrec : copyFoldersStage Env.ok did rest
          (rear ++ [⟨sid, c0, .FILES, none, none⟩]) (budgetTick none) d with ⟨res, b3⟩
      simp only [hrec, FoldersRes.withEvsP, Prod.mk.injEq] at h
      obtain ⟨h1, h2⟩ := h
      obtain ⟨evs2, hr, hevs⟩ := FoldersRes.withEvs_completed_folders h1
      obtain ⟨hc1, hc2, hc3⟩ := ih _ _ _ hv hd rear2 d2 evs2 b3 (by rw [← hr]; simpa using hrec)
      have hle : DestLe d d2 := by
        have := ((copyFoldersStage_destLe Env.ok did rest _ (budgetTick none) d res b3
          hrec) hv).1
        rw [hr] at this
        exact this
      refine ⟨?_, ?_, fun t0 ht => ?_⟩
      · intro p hp
        rcases List.mem_cons.mp hp with hp | hp
        · subst hp
          refine ⟨c0, findFolderByName_mono hle hfind,
            lookupDest_isSome_mono hle (destInv_find_isSome hv hd hfind), ?_⟩
          exact hc2 _ (List.mem_append_right _ (by simp))
        · exact hc1 p hp
      · intro t0 ht
        exact hc2 t0 (List.mem_append_left _ ht)
      · rcases hc3 t0 ht with hin | hfresh
        · rcases List.mem_append.mp hin with hin | hin
          · exact Or.inl hin
          · exact Or.inr ⟨sid, c0, by simpa using hin⟩
        · exact Or.inr hfresh

/-- A fault-free FILES stage whose every file already exists by name in
the destination leaves the destination untouched. -/
theorem copyFilesStage_ok_noop (did : Nat) :
    ∀ rest tc d, (∀ n ∈ rest, fileExists d did n = true) →
      ∃ c evs, copyFilesStage Env.ok did rest none tc d = (.completed c d evs, none) := by
  intro rest
  induction rest with
  | nil => intro tc d hall; exact ⟨tc, [], rfl⟩
  | cons n rest ih =>
    intro tc d hall
    have hex : fileExists d did n = true := hall n (by simp)
    obtain ⟨c, evs, hrec⟩ := ih (tc + 1) d (fun m hm => hall m (by simp [hm]))
    refine ⟨c, [.timeCheck false, .fileItem did n, .skippedFile did n] ++ evs, ?_⟩
    simp [copyFilesStage, hex, hrec, FilesRes.withEvsP, FilesRes.withEvs]

/-- A fault-free FOLDERS stage whose every subfolder already has a
same-named destination subfolder leaves the destination untouched and
appends only the found children. -/
theorem copyFoldersStage_ok_noop (did : Nat) :
    ∀ rest rear d, (∀ p ∈ rest, (findFolderByName d did p.2).isSome = true) →
      ∃ rear2 evs,
        copyFoldersStage Env.ok did rest rear none d = (.completed rear2 d evs, none) ∧
        ∀ t0 ∈ rear2, t0 ∈ rear ∨
          ∃ p, p ∈ rest ∧ ∃ c, findFolderByName d did p.2 = some c ∧
            t0 = (⟨p.1, c, .FILES, none, none⟩ : Task) := by
  intro rest
  induction rest with
  | nil => intro rear d hall; exact ⟨rear, [], rfl, fun t0 ht => Or.inl ht⟩
  | cons p rest ih =>
    obtain ⟨sid, sname⟩ := p
    intro rear d hall
    obtain ⟨c0, hc0⟩ := Option.isSome_iff_exists.mp (hall (sid, sname) (by simp))
    obtain ⟨rear2, evs, hrec, hmem⟩ :=
      ih (rear ++ [⟨sid, c0, .FILES, none, none⟩]) d (fun m hm => hall m (by simp [hm]))
    have hc0' : findFolderByName d did sname = some c0 := hc0
    refine ⟨rear2,
      [.timeCheck false, .subItem did sid sname,
        .reusedFolder did sname c0, .enqueued sid c0] ++ evs, ?_, ?_⟩
    · simp [copyFoldersStage, hc0', hrec, FoldersRes.withEvsP, FoldersRes.withEvs]
    · intro t0 ht
      rcases hmem t0 ht with hin | ⟨p2, hp2, c2, hcf, hteq⟩
      · rcases List.mem_append.mp hin with hin | hin
        · exact Or.inl hin
        · exact Or.inr ⟨(sid, sname), by simp, c0, hc0, by simpa using hin⟩
      · exact Or.inr ⟨p2, by simp [hp2], c2, hcf, hteq⟩

/-! ### The mirroring relation established by a completed copy -/

/-- `Mirrors drive dest sid did`: the destination folder `did` covers the
source subtree rooted at `sid` — every source file name is present, and
every source subfolder has a same-named destination subfolder (first
match) that recursively mirrors it. -/
inductive Mirrors (drive : SrcDrive) (dest : DestState) : Nat → Nat → Prop where
  | intro (sid did : Nat) (sf : SrcFolder)
      (hs : lookupSrc drive sid = some sf)
      (hfiles : ∀ n ∈ sf.files, fileExists dest did n = true)
      (hfound : ∀ p ∈ sf.subs, ∃ c, findFolderByName dest did p.2 = some c)
      (hrec : ∀ p ∈ sf.subs, ∀ c, findFolderByName dest did p.2 = some c →
          Mirrors drive dest p.1 c) :
      Mirrors drive dest sid did

theorem Mirrors.mono_mirrors {drive : SrcDrive} {d d' : DestState} (hle : DestLe d d') :
    ∀ {s t}, Mirrors drive d s t → Mirrors drive d' s t := by
  intro s t h
  induction h with
  | intro sid did sf hs hfiles hfound hrec ih =>
    refine .intro sid did sf hs (fun n hn => fileExists_mono hle (hfiles n hn)) ?_ ?_
    · intro p hp
      obtain ⟨c, hc⟩ := hfound p hp
      exact ⟨c, findFolderByName_mono hle hc⟩
    · intro p hp c hc
      obtain ⟨c0, hc0⟩ := hfound p hp
      have hcc : c = c0 := by
        rw [findFolderByName_mono hle hc0] at hc
        rcases hc with ⟨⟩
        rfl
      rw [hcc]
      exact ih p hp c0 hc0

/-- A queue task as the fault-free walker leaves them between iterations:
no pending cursors, and if its FILES stage is already behind it, all its
source files are already present in its destination folder. -/
def TaskReady (drive : SrcDrive) (d : DestState) (t : Task) : Prop :=
  t.fileToken = none ∧ t.folderToken = none ∧
    (t.stage = .FOLDERS →
      ∀ sf, lookupSrc drive t.sourceId = some sf →
        ∀ n ∈ sf.files, fileExists d t.destId n = true)

theorem TaskReady.mono_ready {drive : SrcDrive} {d d' : DestState} (hle : DestLe d d')
    {t : Task} (h : TaskReady drive d t) : TaskReady drive d' t := by
  refine ⟨h.1, h.2.1, fun hst sf hs n hn => fileExists_mono hle (h.2.2 hst sf hs n hn)⟩

/-- A fault-free, unbudgeted run that completes leaves every queued task's
destination mirroring its source subtree. -/
theorem processQueue_mirrors (drive : SrcDrive) (hclosed : srcClosed drive = true) :
    ∀ fuel q tc d core msg evs,
      destInv d = true →
      (∀ t ∈ q, TaskReady drive d t) →
      processQueue Env.ok drive fuel q none tc d = .done core msg evs →
      ∀ t ∈ q, ∀ sf, lookupSrc drive t.sourceId = some sf →
        ∀ df, lookupDest d t.destId = some df →
        Mirrors drive core.dest t.sourceId t.destId := by
  intro fuel
  induction fuel with
  | zero =>
    intro q tc d core msg evs hv hready h
    exact absurd h (by rw [processQueue]; simp)
  | succ fuel ih =>
    intro q tc d core msg evs hv hready h t ht sf0 hs0 df0 hd0
    cases q with
    | nil => cases ht
    | cons thead tail =>
      rcases hsrc : lookupSrc drive thead.sourceId with _ | sf
      · rw [processQueue_access Env.ok drive fuel thead tail none tc d (Or.inl hsrc)] at h
        obtain ⟨evs2, hrec, _⟩ := RunOut.withEvs_done_run h
        rcases List.mem_cons.mp ht with ht | ht
        · subst ht
          rw [hsrc] at hs0
          cases hs0
        · exact ih tail tc d core msg evs2 hv
            (fun t2 ht2 => hready t2 (by simp [ht2])) hrec t ht sf0 hs0 df0 hd0
      · rcases hdst : lookupDest d thead.destId with _ | df
        · rw [processQueue_access Env.ok drive fuel thead tail none tc d (Or.inr hdst)] at h
          obtain ⟨evs2, hrec, _⟩ := RunOut.withEvs_done_run h
          rcases List.mem_cons.mp ht with ht | ht
          · subst ht
            rw [hdst] at hd0
            cases hd0
          · exact ih tail tc d core msg evs2 hv
              (fun t2 ht2 => hready t2 (by simp [ht2])) hrec t ht sf0 hs0 df0 hd0
        · have hhead := hready thead (by simp)
          cases hst : thead.stage with
          | FILES =>
            have hfl : fileListing Env.ok sf thead = some sf.files :=
              fileListing_ok sf thead hhead.1
            rcases hloop : copyFilesStage Env.ok thead.destId sf.files none tc d with ⟨res, b2⟩
            cases res with
            | suspended r c d2 evsL =>
              rw [processQueue_files_suspended Env.ok drive fuel thead tail none tc d sf df
                sf.files r c d2 evsL b2 hsrc hdst hst hfl hloop] at h
              exact absurd h (by simp)
            | completed c d2 evsL =>
              have hb2 : b2 = none := by
                have h2 := copyFilesStage_completed_budget Env.ok thead.destId sf.files
                  none tc d c d2 evsL b2 hloop
                rw [hloop] at h2
                rcases h2 with ⟨⟩
                rfl
              subst hb2
              rw [processQueue_files_completed Env.ok drive fuel thead tail none tc d sf df
                sf.files c d2 evsL none hsrc hdst hst hfl hloop] at h
              obtain ⟨evs2, hrec, _⟩ := RunOut.withEvs_done_run h
              have hle : DestLe d d2 :=
                (copyFilesStage_destLe Env.ok thead.destId sf.files none tc d
                  (.completed c d2 evsL) none hloop).1
              have hv2 : destInv d2 = true :=
                (copyFilesStage_destLe Env.ok thead.destId sf.files none tc d
                  (.completed c d2 evsL) none hloop).2 hv
              have hpost := copyFilesStage_ok_post thead.destId sf.files tc d df hdst
                c d2 evsL none hloop
              have hready2 : ∀ t2 ∈ ({thead with stage := .FOLDERS, fileToken := none} :: tail),
                  TaskReady drive d2 t2 := by
                intro t2 ht2
                rcases List.mem_cons.mp ht2 with ht2 | ht2
                · subst ht2
                  refine ⟨rfl, hhead.2.1, fun _ sf2 hs2 n hn => ?_⟩
                  have hsf2 : sf2 = sf := by
                    rw [hsrc] at hs2
                    rcases hs2 with ⟨⟩
                    rfl
                  subst hsf2
                  exact hpost n hn
                · exact (hready t2 (by simp [ht2])).mono_ready hle
              have hcon := ih _ c d2 core msg evs2 hv2 hready2 hrec
              rcases List.mem_cons.mp ht with ht | ht
              · subst ht
                have hds : (lookupDest d2 t.destId).isSome = true :=
                  lookupDest_isSome_mono hle (by rw [hd0]; rfl)
                obtain ⟨df2, hdf2⟩ := Option.isSome_iff_exists.mp hds
                exact hcon {t with stage := .FOLDERS, fileToken := none} (by simp)
                  sf0 hs0 df2 hdf2
              · have hds : (lookupDest d2 t.destId).isSome = true :=
                  lookupDest_isSome_mono hle (by rw [hd0]; rfl)
                obtain ⟨df2, hdf2⟩ := Option.isSome_iff_exists.mp hds
                exact hcon t (by simp [ht]) sf0 hs0 df2 hdf2
          | FOLDERS =>
            have hfl : folderListing Env.ok sf thead = some sf.subs :=
              folderListing_ok sf thead hhead.2.1
            rcases hloop : copyFoldersStage Env.ok thead.destId sf.subs tail none d with
              ⟨res, b2⟩
            cases res with
            | suspended r rear d2 evsL =>
              rw [processQueue_folders_suspended Env.ok drive fuel thead tail none tc d sf df
                sf.subs r rear d2 evsL b2 hsrc hdst hst hfl hloop] at h
              exact absurd h (by simp)
            | completed rear d2 evsL =>
              have hb2 : b2 = none := by
                have h2 := copyFoldersStage_completed_budget Env.ok thead.destId sf.subs
                  tail none d rear d2 evsL b2 hloop
                rw [hloop] at h2
                rcases h2 with ⟨⟩
                rfl
              subst hb2
              rw [processQueue_folders_completed Env.ok drive fuel thead tail none tc d sf df
                sf.subs rear d2 evsL none hsrc hdst hst hfl hloop] at h
              obtain ⟨evs2, hrec, _⟩ := RunOut.withEvs_done_run h
              have hle : DestLe d d2 :=
                ((copyFoldersStage_destLe Env.ok thead.destId sf.subs tail none d
                  (.completed rear d2 evsL) none hloop) hv).1
              have hv2 : destInv d2 = true :=
                ((copyFoldersStage_destLe Env.ok thead.destId sf.subs tail none d
                  (.completed rear d2 evsL) none hloop) hv).2
              obtain ⟨hc1, hc2, hc3⟩ := copyFoldersStage_ok_post thead.destId sf.subs tail
                d df hv hdst rear d2 evsL none hloop
              have hready2 : ∀ t2 ∈ rear, TaskReady drive d2 t2 := by
                intro t2 ht2
                rcases hc3 t2 ht2 with ht2 | ⟨s2, c2, ht2⟩
                · exact (hready t2 (by simp [ht2])).mono_ready hle
                · subst ht2
                  exact ⟨rfl, rfl, by intro hcontra; cases hcontra⟩
              have hcon := ih rear tc d2 core msg evs2 hv2 hready2 hrec
              have hfinLe : DestLe d2 core.dest :=
                (processQueue_destInv Env.ok drive fuel rear none tc d2 hv2 core
                  (by rw [hrec]; rfl)).2
              rcases List.mem_cons.mp ht with ht | ht
              · subst ht
                refine Mirrors.intro t.sourceId t.destId sf0 hs0 ?_ ?_ ?_
                · intro n hn
                  exact fileExists_mono (DestLe.trans hle hfinLe)
                    (hhead.2.2 hst sf0 hs0 n hn)
                · intro p hp
                  have hsf0 : sf0 = sf := by
                    rw [hsrc] at hs0
                    rcases hs0 with ⟨⟩
                    rfl
                  obtain ⟨c2, hfind2, _, _⟩ := hc1 p (hsf0 ▸ hp)
                  exact ⟨c2, findFolderByName_mono hfinLe hfind2⟩
                · intro p hp c2 hfindFin
                  have hsf0 : sf0 = sf := by
                    rw [hsrc] at hs0
                    rcases hs0 with ⟨⟩
                    rfl
                  obtain ⟨c0, hfind2, hsome2, hmem2⟩ := hc1 p (hsf0 ▸ hp)
                  have hcc : c2 = c0 := by
                    rw [findFolderByName_mono hfinLe hfind2] at hfindFin
                    rcases hfindFin with ⟨⟩
                    rfl
                  rw [hcc]
                  obtain ⟨g, hg⟩ := srcClosed_sub hclosed hs0 hp
                  obtain ⟨dfc, hdfc⟩ := Option.isSome_iff_exists.mp hsome2
                  exact hcon ⟨p.1, c0, .FILES, none, none⟩ hmem2 g hg dfc hdfc
              · have hds : (lookupDest d2 t.destId).isSome = true :=
                  lookupDest_isSome_mono hle (by rw [hd0]; rfl)
                obtain ⟨df2, hdf2⟩ := Option.isSome_iff_exists.mp hds
                exact hcon t (hc2 t ht) sf0 hs0 df2 hdf2

/-- A queue task whose destination already mirrors its source subtree
(whenever both ends resolve), with no pending cursors. -/
def TaskSettled (drive : SrcDrive) (d : DestState) (t : Task) : Prop :=
  t.fileToken = none ∧ t.folderToken = none ∧
    ∀ sf, lookupSrc drive t.sourceId = some sf →
      ∀ df, lookupDest d t.destId = some df →
      Mirrors drive d t.sourceId t.destId

/-- A fault-free, unbudgeted run over tasks whose destinations already
mirror their sources copies nothing: every file is skipped by the
name-existence check, every subfolder is reused by name match, and the
destination comes out unchanged. -/
theorem processQueue_settled_noop (drive : SrcDrive) :
    ∀ fuel q tc d core msg evs,
      (∀ t ∈ q, TaskSettled drive d t) →
      processQueue Env.ok drive fuel q none tc d = .done core msg evs →
      core.dest = d := by
  intro fuel
  induction fuel with
  | zero =>
    intro q tc d core msg evs hset h
    exact absurd h (by rw [processQueue]; simp)
  | succ fuel ih =>
    intro q tc d core msg evs hset h
    cases q with
    | nil =>
      rw [processQueue_nil] at h
      rcases h with ⟨⟩
      rfl
    | cons thead tail =>
      rcases hsrc : lookupSrc drive thead.sourceId with _ | sf
      · rw [processQueue_access Env.ok drive fuel thead tail none tc d (Or.inl hsrc)] at h
        obtain ⟨evs2, hrec, _⟩ := RunOut.withEvs_done_run h
        exact ih tail tc d core msg evs2 (fun t2 ht2 => hset t2 (by simp [ht2])) hrec
      · rcases hdst : lookupDest d thead.destId with _ | df
        · rw [processQueue_access Env.ok drive fuel thead tail none tc d (Or.inr hdst)] at h
          obtain ⟨evs2, hrec, _⟩ := RunOut.withEvs_done_run h
          exact ih tail tc d core msg evs2 (fun t2 ht2 => hset t2 (by simp [ht2])) hrec
        · have hhead := hset thead (by simp)
          have hmir := hhead.2.2 sf hsrc df hdst
          cases hmir with
          | intro sid did sf2 hs2 hfiles2 hfound2 hrec2 =>
          have hsf2 : sf = sf2 := by
            rw [hsrc] at hs2
            rcases hs2 with ⟨⟩
            rfl
          subst hsf2
          cases hst : thead.stage with
          | FILES =>
            have hfl : fileListing Env.ok sf thead = some sf.files :=
              fileListing_ok sf thead hhead.1
            obtain ⟨c, evsN, hloopN⟩ :=
              copyFilesStage_ok_noop thead.destId sf.files tc d hfiles2
            rw [processQueue_files_completed Env.ok drive fuel thead tail none tc d sf df
              sf.files c d evsN none hsrc hdst hst hfl hloopN] at h
            obtain ⟨evs2, hrec, _⟩ := RunOut.withEvs_done_run h
            refine ih _ c d core msg evs2 ?_ hrec
            intro t2 ht2
            rcases List.mem_cons.mp ht2 with ht2 | ht2
            · subst ht2
              exact ⟨rfl, hhead.2.1, fun sf3 hs3 df3 hd3 => hhead.2.2 sf3 hs3 df3 hd3⟩
            · exact hset t2 (by simp [ht2])
          | FOLDERS =>
            have hfl : folderListing Env.ok sf thead = some sf.subs :=
              folderListing_ok sf thead hhead.2.1
            have hall : ∀ p ∈ sf.subs, (findFolderByName d thead.destId p.2).isSome = true := by
              intro p hp
              obtain ⟨c, hc⟩ := hfound2 p hp
              rw [hc]
              rfl
            obtain ⟨rear2, evsN, hloopN, hmem⟩ :=
              copyFoldersStage_ok_noop thead.destId sf.subs tail d hall
            rw [processQueue_folders_completed Env.ok drive fuel thead tail none tc d sf df
              sf.subs rear2 d evsN none hsrc hdst hst hfl hloopN] at h
            obtain ⟨evs2, hrec, _⟩ := RunOut.withEvs_done_run h
            refine ih rear2 tc d core msg evs2 ?_ hrec
            intro t2 ht2
            rcases hmem t2 ht2 with ht2 | ⟨p, hp, c, hc, hteq⟩
            · exact hset t2 (by simp [ht2])
            · subst hteq
              exact ⟨rfl, rfl, fun sf3 hs3 df3 hd3 => hrec2 p hp c hc⟩

theorem findFolderByName_some_lookup {d : DestState} {did : Nat} {nm : String} {c : Nat}
    (h : findFolderByName d did nm = some c) : ∃ df, lookupDest d did = some df := by
  unfold findFolderByName at h
  rcases hx : lookupDest d did with _ | df
  · rw [hx] at h
    exact Option.noConfusion h
  · exact ⟨df, rfl⟩

/-- In any environment, a FOLDERS-stage run only appends tasks whose
destination id resolves in the resulting destination state (each was just
found by name match or just created there). -/
theorem copyFoldersStage_rear (env : Env) (did : Nat) :
    ∀ rest rear b d res b2,
      copyFoldersStage env did rest rear b d = (res, b2) → destInv d = true →
      ∀ t0 ∈ res.sig.2.1, t0 ∈ rear ∨ (lookupDest res.sig.2.2 t0.destId).isSome = true := by
  intro rest
  induction rest with
  | nil =>
    intro rear b d res b2 h hv t0 ht0
    rw [copyFoldersStage] at h
    rcases h with ⟨⟩
    exact Or.inl ht0
  | cons p rest ih =>
    obtain ⟨sid, sname⟩ := p
    intro rear b d res b2 h hv t0 ht0
    rw [copyFoldersStage] at h
    by_cases hb : budgetExpired b = true
    · rw [if_pos hb] at h
      rcases h with ⟨⟩
      exact Or.inl ht0
    · rw [if_neg hb] at h
      by_cases hop : env.subOpFail did sid = true
      · rw [if_pos hop] at h
        rcases hrec : copyFoldersStage env did rest rear (budgetTick b) d with ⟨res2, b3⟩
        rw [hrec] at h
        simp only [FoldersRes.withEvsP, Prod.mk.injEq] at h
        obtain ⟨h1, _⟩ := h
        subst h1
        rw [FoldersRes.sig_withEvs_folders] at ht0 ⊢
        exact ih _ _ _ _ _ hrec hv t0 ht0
      · rw [if_neg hop] at h
        rcases hfind : findFolderByName d did sname with _ | c
        · rw [hfind] at h
          rcases hrec : copyFoldersStage env did rest
              (rear ++ [⟨sid, (createFolder d did sname).2, .FILES, none, none⟩])
              (budgetTick b) (createFolder d did sname).1 with ⟨res2, b3⟩
          simp only [hrec, FoldersRes.withEvsP, Prod.mk.injEq] at h
          obtain ⟨h1, _⟩ := h
          subst h1
          rw [FoldersRes.sig_withEvs_folders] at ht0 ⊢
          have hv' := destInv_createFolder hv did sname
          have hle : DestLe (createFolder d did sname).1 res2.sig.2.2 :=
            ((copyFoldersStage_destLe env did rest _ (budgetTick b) _ res2 b3 hrec) hv').1
          rcases ih _ _ _ _ _ hrec hv' t0 ht0 with hin | hval
          · rcases List.mem_append.mp hin with hin | hin
            · exact Or.inl hin
            · have ht0eq : t0 = ⟨sid, (createFolder d did sname).2, .FILES, none, none⟩ := by
                simpa using hin
              refine Or.inr ?_
              subst ht0eq
              refine lookupDest_isSome_mono hle ?_
              show (lookupDest (createFolder d did sname).1 d.nextId).isSome = true
              rw [lookupDest_createFolder_new]
              rfl
          · exact Or.inr hval
        · rw [hfind] at h
          rcases hrec : copyFoldersStage env did rest
              (rear ++ [⟨sid, c, .FILES, none, none⟩]) (budgetTick b) d with ⟨res2, b3⟩
          simp only [hrec, FoldersRes.withEvsP, Prod.mk.injEq] at h
          obtain ⟨h1, _⟩ := h
          subst h1
          rw [FoldersRes.sig_withEvs_folders] at ht0 ⊢
          have hle : DestLe d res2.sig.2.2 :=
            ((copyFoldersStage_destLe env did rest _ (budgetTick b) d res2 b3 hrec) hv).1
          rcases ih _ _ _ _ _ hrec hv t0 ht0 with hin | hval
          · rcases List.mem_append.mp hin with hin | hin
            · exact Or.inl hin
            · have ht0eq : t0 = ⟨sid, c, .FILES, none, none⟩ := by simpa using hin
              refine Or.inr ?_
              subst ht0eq
              obtain ⟨df0, hdf0⟩ := findFolderByName_some_lookup hfind
              exact lookupDest_isSome_mono hle (destInv_find_isSome hv hdf0 hfind)
          · exact Or.inr hval

/-- Queue-validity preservation, in any environment: if every queued
task's destination id resolves, then after any execution — completed or
suspended — every remaining or newly enqueued task's destination id still
resolves in the resulting destination state. -/
theorem processQueue_queueOk (env : Env) (drive : SrcDrive) :
    ∀ fuel q b tc d, destInv d = true →
      (∀ t ∈ q, (lookupDest d t.destId).isSome = true) →
      ∀ core, (processQueue env drive fuel q b tc d).core? = some core →
      ∀ t ∈ core.queue, (lookupDest core.dest t.destId).isSome = true := by
  intro fuel
  induction fuel with
  | zero =>
    intro q b tc d hv hq core h
    exact absurd h (by rw [processQueue]; simp [RunOut.core?])
  | succ fuel ih =>
    intro q b tc d hv hq core h
    cases q with
    | nil =>
      rw [processQueue_nil] at h
      rcases h with ⟨⟩
      intro t ht
      cases ht
    | cons thead tail =>
      rcases hsrc : lookupSrc drive thead.sourceId with _ | sf
      · rw [processQueue_access env drive fuel thead tail b tc d (Or.inl hsrc),
          RunOut.core_withEvs] at h
        exact ih tail b tc d hv (fun t2 ht2 => hq t2 (by simp [ht2])) core h
      · rcases hdst : lookupDest d thead.destId with _ | df
        · rw [processQueue_access env drive fuel thead tail b tc d (Or.inr hdst),
            RunOut.core_withEvs] at h
          exact ih tail b tc d hv (fun t2 ht2 => hq t2 (by simp [ht2])) core h
        · cases hst : thead.stage with
          | FILES =>
            rcases hfl : fileListing env sf thead with _ | rest
            · rw [processQueue_files_nolist env drive fuel thead tail b tc d sf df
                hsrc hdst hst hfl, RunOut.core_withEvs] at h
              refine ih _ b tc d hv ?_ core h
              intro t2 ht2
              rcases List.mem_cons.mp ht2 with ht2 | ht2
              · subst ht2
                exact hq thead (by simp)
              · exact hq t2 (by simp [ht2])
            · rcases hloop : copyFilesStage env thead.destId rest b tc d with ⟨res, b2⟩
              have hle : DestLe d res.sig.2.2 :=
                (copyFilesStage_destLe env thead.destId rest b tc d res b2 hloop).1
              have hv2 : destInv res.sig.2.2 = true :=
                (copyFilesStage_destLe env thead.destId rest b tc d res b2 hloop).2 hv
              cases res with
              | suspended r c d2 evsL =>
                rw [processQueue_files_suspended env drive fuel thead tail b tc d sf df
                  rest r c d2 evsL b2 hsrc hdst hst hfl hloop] at h
                rcases h with ⟨⟩
                intro t2 ht2
                rcases List.mem_cons.mp ht2 with ht2 | ht2
                · subst ht2
                  exact lookupDest_isSome_mono hle (hq thead (by simp))
                · exact lookupDest_isSome_mono hle (hq t2 (by simp [ht2]))
              | completed c d2 evsL =>
                rw [processQueue_files_completed env drive fuel thead tail b tc d sf df
                  rest c d2 evsL b2 hsrc hdst hst hfl hloop, RunOut.core_withEvs] at h
                refine ih _ b2 c d2 hv2 ?_ core h
                intro t2 ht2
                rcases List.mem_cons.mp ht2 with ht2 | ht2
                · subst ht2
                  exact lookupDest_isSome_mono hle (hq thead (by simp))
                · exact lookupDest_isSome_mono hle (hq t2 (by simp [ht2]))
          | FOLDERS =>
            rcases hfl : folderListing env sf thead with _ | rest
            · rw [processQueue_folders_nolist env drive fuel thead tail b tc d sf df
                hsrc hdst hst hfl, RunOut.core_withEvs] at h
              exact ih tail b tc d hv (fun t2 ht2 => hq t2 (by simp [ht2])) core h
            · rcases hloop : copyFoldersStage env thead.destId rest tail b d with ⟨res, b2⟩
              have hle : DestLe d res.sig.2.2 :=
                ((copyFoldersStage_destLe env thead.destId rest tail b d res b2 hloop) hv).1
              have hv2 : destInv res.sig.2.2 = true :=
                ((copyFoldersStage_destLe env thead.destId rest tail b d res b2 hloop) hv).2
              have hrear := copyFoldersStage_rear env thead.destId rest tail b d res b2
                hloop hv
              cases res with
              | suspended r rear d2 evsL =>
                rw [processQueue_folders_suspended env drive fuel thead tail b tc d sf df
                  rest r rear d2 evsL b2 hsrc hdst hst hfl hloop] at h
                rcases h with ⟨⟩
                intro t2 ht2
                rcases List.mem_cons.mp ht2 with ht2 | ht2
                · subst ht2
                  exact lookupDest_isSome_mono hle (hq thead (by simp))
                · rcases hrear t2 ht2 with hin | hval
                  · exact lookupDest_isSome_mono hle (hq t2 (by simp [hin]))
                  · exact hval
              | completed rear d2 evsL =>
                rw [processQueue_folders_completed env drive fuel thead tail b tc d sf df
                  rest rear d2 evsL b2 hsrc hdst hst hfl hloop, RunOut.core_withEvs] at h
                refine ih rear b2 tc d2 hv2 ?_ core h
                intro t2 ht2
                rcases hrear t2 ht2 with hin | hval
                · exact lookupDest_isSome_mono hle (hq t2 (by simp [hin]))
                · exact hval

/-! ### Budget-guard placement: what the trace of a suspension looks like -/

/-- Events of a FILES-stage outcome. -/
def FilesRes.evsOf : FilesRes → List Ev
  | .suspended _ _ _ e => e
  | .completed _ _ e => e

/-- Events of a FOLDERS-stage outcome. -/
def FoldersRes.evsOf : FoldersRes → List Ev
  | .suspended _ _ _ e => e
  | .completed _ _ e => e

@[simp] theorem FilesRes.evsOf_withEvs_files (e : List Ev) (r : FilesRes) :
    (r.withEvs e).evsOf = e ++ r.evsOf := by
  cases r <;> rfl

@[simp] theorem FoldersRes.evsOf_withEvs_folders (e : List Ev) (r : FoldersRes) :
    (r.withEvs e).evsOf = e ++ r.evsOf := by
  cases r <;> rfl

theorem copyFilesStage_suspended_evs (env : Env) (did : Nat) :
    ∀ rest b tc d r c d2 evs b2,
      copyFilesStage env did rest b tc d = (.suspended r c d2 evs, b2) →
      ∃ pre, evs = pre ++ [.timeCheck true] := by
  intro rest
  induction rest with
  | nil =>
    intro b tc d r c d2 evs b2 h
    rw [copyFilesStage] at h
    exact absurd h (by simp)
  | cons n rest ih =>
    intro b tc d r c d2 evs b2 h
    rw [copyFilesStage] at h
    by_cases hb : budgetExpired b = true
    · rw [if_pos hb] at h
      rcases h with ⟨⟩
      exact ⟨[], rfl⟩
    · rw [if_neg hb] at h
      by_cases hop : env.fileOpFail did n = true
      · simp only [hop, if_true, FilesRes.withEvsP, Prod.mk.injEq] at h
        obtain ⟨h1, h2⟩ := h
        obtain ⟨evs2, hr, hevs⟩ := FilesRes.withEvs_suspended_files h1
        obtain ⟨pre, hpre⟩ := ih _ _ _ _ _ _ _ _ (Prod.ext hr h2)
        subst hevs
        subst hpre
        exact ⟨_ ++ pre, by rw [List.append_assoc]⟩
      · by_cases hex : fileExists d did n = true
        · simp only [hop, hex, if_true, if_false, Bool.false_eq_true,
            FilesRes.withEvsP, Prod.mk.injEq] at h
          obtain ⟨h1, h2⟩ := h
          obtain ⟨evs2, hr, hevs⟩ := FilesRes.withEvs_suspended_files h1
          obtain ⟨pre, hpre⟩ := ih _ _ _ _ _ _ _ _ (Prod.ext hr h2)
          subst hevs
          subst hpre
          exact ⟨_ ++ pre, by rw [List.append_assoc]⟩
        · simp only [hop, hex, if_false, Bool.false_eq_true,
            FilesRes.withEvsP, Prod.mk.injEq] at h
          obtain ⟨h1, h2⟩ := h
          obtain ⟨evs2, hr, hevs⟩ := FilesRes.withEvs_suspended_files h1
          obtain ⟨pre, hpre⟩ := ih _ _ _ _ _ _ _ _ (Prod.ext hr h2)
          subst hevs
          subst hpre
          exact ⟨_ ++ pre, by rw [List.append_assoc]⟩

theorem copyFoldersStage_suspended_evs (env : Env) (did : Nat) :
    ∀ rest rear b d r rear2 d2 evs b2,
      copyFoldersStage env did rest rear b d = (.suspended r rear2 d2 evs, b2) →
      ∃ pre, evs = pre ++ [.timeCheck true] := by
  intro rest
  induction rest with
  | nil =>
    intro rear b d r rear2 d2 evs b2 h
    rw [copyFoldersStage] at h
    exact absurd h (by simp)
  | cons p rest ih =>
    obtain ⟨sid, sname⟩ := p
    intro rear b d r rear2 d2 evs b2 h
    rw [copyFoldersStage] at h
    by_cases hb : budgetExpired b = true
    · rw [if_pos hb] at h
      rcases h with ⟨⟩
      exact ⟨[], rfl⟩
    · rw [if_neg hb] at h
      by_cases hop : env.subOpFail did sid = true
      · rw [if_pos hop] at h
        simp only [FoldersRes.withEvsP, Prod.mk.injEq] at h
        obtain ⟨h1, h2⟩ := h
        obtain ⟨evs2, hr, hevs⟩ := FoldersRes.withEvs_suspended_folders h1
        obtain ⟨pre, hpre⟩ := ih _ _ _ _ _ _ _ _ (Prod.ext hr h2)
        subst hevs
        subst hpre
        exact ⟨_ ++ pre, by rw [List.append_assoc]⟩
      · rw [if_neg hop] at h
        rcases hfind : findFolderByName d did sname with _ | c <;> rw [hfind] at h <;>
          · simp only [FoldersRes.withEvsP, Prod.mk.injEq] at h
            obtain ⟨h1, h2⟩ := h
            obtain ⟨evs2, hr, hevs⟩ := FoldersRes.withEvs_suspended_folders h1
            obtain ⟨pre, hpre⟩ := ih _ _ _ _ _ _ _ _ (Prod.ext hr h2)
            subst hevs
            subst hpre
            exact ⟨_ ++ pre, by rw [List.append_assoc]⟩

theorem exists_pre_shift {α : Type} {evs L : List α} (E : List α) :
    (∃ pre, evs = pre ++ L) → ∃ pre, E ++ evs = pre ++ L := by
  rintro ⟨p, rfl⟩
  exact ⟨E ++ p, by rw [List.append_assoc]⟩

/-- Whenever an execution suspends: the trace ends with the firing check,
the `saveState` of exactly the persisted queue and counter, the scheduled
resume and the `Pausing...` status write — nothing is processed after the
guard fires — and the head of the persisted queue carries a continuation
token. -/
theorem processQueue_paused_shape (env : Env) (drive : SrcDrive) :
    ∀ fuel q b tc d core evs,
      processQueue env drive fuel q b tc d = .paused core evs →
      (∃ pre, evs = pre ++ [.timeCheck true,
          .savedState core.queue core.totalCopied,
          .scheduledResume, .statusWrite (pausingMsg core.totalCopied)]) ∧
      ∃ h2 t2, core.queue = h2 :: t2 ∧ (h2.fileToken.isSome || h2.folderToken.isSome) = true := by
  intro fuel
  induction fuel with
  | zero =>
    intro q b tc d core evs h
    exact absurd h (by rw [processQueue]; simp)
  | succ fuel ih =>
    intro q b tc d core evs h
    cases q with
    | nil => exact absurd h (by rw [processQueue_nil]; simp)
    | cons t tail =>
      rcases hsrc : lookupSrc drive t.sourceId with _ | sf
      · rw [processQueue_access env drive fuel t tail b tc d (Or.inl hsrc)] at h
        obtain ⟨evsP, hrec, hevs⟩ := RunOut.withEvs_paused h
        obtain ⟨⟨pre, hpre⟩, hhead⟩ := ih tail b tc d core evsP hrec
        subst hevs
        subst hpre
        exact ⟨exists_pre_shift _ ⟨pre, rfl⟩, hhead⟩
      · rcases hdst : lookupDest d t.destId with _ | df
        · rw [processQueue_access env drive fuel t tail b tc d (Or.inr hdst)] at h
          obtain ⟨evsP, hrec, hevs⟩ := RunOut.withEvs_paused h
          obtain ⟨⟨pre, hpre⟩, hhead⟩ := ih tail b tc d core evsP hrec
          subst hevs
          subst hpre
          exact ⟨exists_pre_shift _ ⟨pre, rfl⟩, hhead⟩
        · cases hst : t.stage with
          | FILES =>
            rcases hfl : fileListing env sf t with _ | rest
            · rw [processQueue_files_nolist env drive fuel t tail b tc d sf df
                hsrc hdst hst hfl] at h
              obtain ⟨evsP, hrec, hevs⟩ := RunOut.withEvs_paused h
              obtain ⟨⟨pre, hpre⟩, hhead⟩ := ih _ b tc d core evsP hrec
              subst hevs
              subst hpre
              exact ⟨exists_pre_shift _ ⟨pre, rfl⟩, hhead⟩
            · rcases hloop : copyFilesStage env t.destId rest b tc d with ⟨res, b2⟩
              cases res with
              | suspended r c d2 evsL =>
                rw [processQueue_files_suspended env drive fuel t tail b tc d sf df
                  rest r c d2 evsL b2 hsrc hdst hst hfl hloop] at h
                rcases h with ⟨⟩
                obtain ⟨pre, hpre⟩ :=
                  copyFilesStage_suspended_evs env t.destId rest b tc d r c d2 evsL b2 hloop
                subst hpre
                refine ⟨⟨pre, by rw [List.append_assoc]; rfl⟩, ?_⟩
                exact ⟨{t with fileToken := some r}, tail, rfl, by simp⟩
              | completed c d2 evsL =>
                rw [processQueue_files_completed env drive fuel t tail b tc d sf df
                  rest c d2 evsL b2 hsrc hdst hst hfl hloop] at h
                obtain ⟨evsP, hrec, hevs⟩ := RunOut.withEvs_paused h
                obtain ⟨⟨pre, hpre⟩, hhead⟩ := ih _ b2 c d2 core evsP hrec
                subst hevs
                subst hpre
                exact ⟨exists_pre_shift _ ⟨pre, rfl⟩, hhead⟩
          | FOLDERS =>
            rcases hfl : folderListing env sf t with _ | rest
            · rw [processQueue_folders_nolist env drive fuel t tail b tc d sf df
                hsrc hdst hst hfl] at h
              obtain ⟨evsP, hrec, hevs⟩ := RunOut.withEvs_paused h
              obtain ⟨⟨pre, hpre⟩, hhead⟩ := ih tail b tc d core evsP hrec
              subst hevs
              subst hpre
              exact ⟨exists_pre_shift _ ⟨pre, rfl⟩, hhead⟩
            · rcases hloop : copyFoldersStage env t.destId rest tail b d with ⟨res, b2⟩
              cases res with
              | suspended r rear d2 evsL =>
                rw [processQueue_folders_suspended env drive fuel t tail b tc d sf df
                  rest r rear d2 evsL b2 hsrc hdst hst hfl hloop] at h
                rcases h with ⟨⟩
                obtain ⟨pre, hpre⟩ :=
                  copyFoldersStage_suspended_evs env t.destId rest tail b d r rear d2
                    evsL b2 hloop
                subst hpre
                refine ⟨⟨pre, by rw [List.append_assoc]; rfl⟩, ?_⟩
                exact ⟨{t with folderToken := some r}, rear, rfl, by simp⟩
              | completed rear d2 evsL =>
                rw [processQueue_folders_completed env drive fuel t tail b tc d sf df
                  rest rear d2 evsL b2 hsrc hdst hst hfl hloop] at h
                obtain ⟨evsP, hrec, hevs⟩ := RunOut.withEvs_paused h
                obtain ⟨⟨pre, hpre⟩, hhead⟩ := ih rear b2 tc d2 core evsP hrec
                subst hevs
                subst hpre
                exact ⟨exists_pre_shift _ ⟨pre, rfl⟩, hhead⟩

/-! ### Concrete instances -/

/-- The spec's worked example tree `root/\x7ba.txt, sub1/\x7bb.txt\x7d, sub2/\x7bc.txt\x7d\x7d`. -/
def exDrive : SrcDrive :=
  [(0, ⟨"root", ["a.txt"], [(1, "sub1"), (2, "sub2")]⟩),
   (1, ⟨"sub1", ["b.txt"], []⟩),
   (2, ⟨"sub2", ["c.txt"], []⟩)]

/-- A destination holding one empty root folder (id 0). -/
def dest0 : DestState := ⟨[(0, ⟨[], []⟩)], 1⟩

/-- The initial task `setupJob` enqueues, rooted at destination folder 0. -/
def rootTask (sid : Nat) : Task := ⟨sid, 0, .FILES, none, none⟩

/-- A source with one empty folder. -/
def emptyDrive : SrcDrive := [(0, ⟨"root", [], []⟩)]

/-- Oracle where resuming folder 0's file cursor finds it stale. -/
def staleEnv : Env := { Env.ok with fileCursorStale := fun i => i == 0 }

/-- Oracle where the file-listing call on folder 0 throws. -/
def failFilesEnv : Env := { Env.ok with listFilesFail := fun i => i == 0 }

/-- Oracle where the folder-listing call on folder 0 throws. -/
def failFoldersEnv : Env := { Env.ok with listFoldersFail := fun i => i == 0 }

/-- Oracle where copying the file named `a` into folder 0 throws. -/
def failOpEnv : Env := { Env.ok with fileOpFail := fun i n => i == 0 && n == "a" }

/-- Source for the stale-cursor scenario: two files, `a` already copied. -/
def c5Drive : SrcDrive := [(0, ⟨"root", ["a", "b"], []⟩)]

/-- Destination for the stale-cursor scenario: `a` copied, `b` not yet. -/
def c5Dest : DestState := ⟨[(0, ⟨["a"], []⟩)], 1⟩

/-- Source for the verification scenario: one file. -/
def vDrive : SrcDrive := [(0, ⟨"root", ["a"], []⟩)]

/-- A faithful destination copy of `vDrive`. -/
def vDest : DestState := ⟨[(0, ⟨["a"], []⟩)], 1⟩

/-- Keep only the item-processing and queue-movement events of a trace. -/
def orderEv : Ev → Bool
  | .fileItem _ _ => true
  | .subItem _ _ _ => true
  | .enqueued _ _ => true
  | .stageDone _ => true
  | .dequeued _ => true
  | _ => false

/-- Recognise a time-limit check event. -/
def isTimeCheckEv : Ev → Bool
  | .timeCheck _ => true
  | _ => false

/-- Recognise a stage-boundary event. -/
def isStageDoneEv : Ev → Bool
  | .stageDone _ => true
  | _ => false

/-- Recognise a task-dequeue event. -/
def isDequeuedEv : Ev → Bool
  | .dequeued _ => true
  | _ => false

/-- Recognise a WARN log row. -/
def isWarnEv : Ev → Bool
  | .log sev _ _ => sev == "WARN"
  | _ => false

/-- Recognise a file-processing event. -/
def isFileItemEv : Ev → Bool
  | .fileItem _ _ => true
  | _ => false

/-- The terminal verification string as the spec's status-key table words
it: `Done. <n> checked.` then the verdict. -/
def verifyDoneMsgSpec (checked mismatches : Nat) : String :=
  if mismatches > 0 then
    "Done. " ++ toString checked ++ " checked." ++ " " ++ toString mismatches
      ++ " ISSUES (See Logs)"
  else
    "Done. " ++ toString checked ++ " checked." ++ " Perfect Match."

theorem RunOut.doneOut_eq {r : RunOut} {c : CopyCore} {msg : String}
    (h : r.doneOut? = some (c, msg)) : ∃ evs, r = .done c msg evs := by
  cases r with
  | done c2 m2 e =>
    simp only [RunOut.doneOut?, Option.some.injEq, Prod.mk.injEq] at h
    exact ⟨e, by rw [h.1, h.2]⟩
  | paused c2 e => exact absurd h (by simp [RunOut.doneOut?])
  | outOfGas e => exact absurd h (by simp [RunOut.doneOut?])

/-! ### The claims -/

/-- C1: running the Copy walker to completion twice over an unchanged
source produces the same destination tree as running it once — files
already present by name are skipped, same-named subfolders are reused —
so the second run leaves the destination exactly as the first left it. -/
theorem copy_idempotent (drive : SrcDrive) (sid did : Nat) (d0 : DestState)
    (sf : SrcFolder) (df : DestFolder)
    (fuel1 fuel2 tc1 tc2 : Nat) (core1 core2 : CopyCore) (msg1 msg2 : String)
    (hclosed : srcClosed drive = true) (hinv : destInv d0 = true)
    (hsrc : lookupSrc drive sid = some sf) (hdst : lookupDest d0 did = some df)
    (h1 : (processQueue Env.ok drive fuel1 [⟨sid, did, .FILES, none, none⟩]
        none tc1 d0).doneOut? = some (core1, msg1))
    (h2 : (processQueue Env.ok drive fuel2 [⟨sid, did, .FILES, none, none⟩]
        none tc2 core1.dest).doneOut? = some (core2, msg2)) :
    core2.dest = core1.dest := by
  obtain ⟨evs1, he1⟩ := RunOut.doneOut_eq h1
  obtain ⟨evs2, he2⟩ := RunOut.doneOut_eq h2
  have hready : ∀ t ∈ [(⟨sid, did, .FILES, none, none⟩ : Task)], TaskReady drive d0 t := by
    intro t ht
    rw [List.mem_singleton] at ht
    subst ht
    exact ⟨rfl, rfl, fun hst => by cases hst⟩
  have hmir : Mirrors drive core1.dest sid did :=
    processQueue_mirrors drive hclosed fuel1 _ tc1 d0 core1 msg1 evs1 hinv hready he1
      _ (List.mem_singleton.mpr rfl) sf hsrc df hdst
  have hsettled : ∀ t ∈ [(⟨sid, did, .FILES, none, none⟩ : Task)],
      TaskSettled drive core1.dest t := by
    intro t ht
    rw [List.mem_singleton] at ht
    subst ht
    exact ⟨rfl, rfl, fun sf2 hs2 df2 hd2 => hmir⟩
  exact processQueue_settled_noop drive fuel2 _ tc2 core1.dest core2 msg2 evs2 hsettled he2

/-- Terminal core of the fault-free run over `exDrive` from `dest0`. -/
def exCore : CopyCore :=
  ⟨[], 3, ⟨[(2, ⟨["c.txt"], []⟩), (1, ⟨["b.txt"], []⟩),
    (0, ⟨["a.txt"], [("sub1", 1), ("sub2", 2)]⟩)], 3⟩⟩

theorem copy_idempotent_witness : exCore.dest = exCore.dest :=
  copy_idempotent exDrive 0 0 dest0 ⟨"root", ["a.txt"], [(1, "sub1"), (2, "sub2")]⟩
    ⟨[], []⟩ 20 20 0 0 exCore exCore "Done. (3 files processed)"
    "Done. (3 files processed)" rfl rfl rfl rfl rfl rfl

/-- C2: interrupting the walker at any budget-expiry point, saving state
and resuming from the loaded state (any number of times) reaches the
same terminal destination tree and terminal status as one uninterrupted
run, provided the saved cursors stay valid. -/
theorem copy_resume_reaches_same_terminal (env : Env) (drive : SrcDrive)
    (hnf : ∀ i, env.fileCursorStale i = false)
    (hnd : ∀ i, env.folderCursorStale i = false)
    (ks : List Nat) (fuel fuelU : Nat) (q : List Task) (tc : Nat) (d : DestState)
    (core coreU : CopyCore) (msg msgU : String)
    (hinv : destInv d = true)
    (hs : runSessions env drive fuel ks q tc d = some (core, msg))
    (hu : (processQueue env drive fuelU q none tc d).doneOut? = some (coreU, msgU)) :
    core = coreU ∧ msg = msgU := by
  obtain ⟨fuel3, h3⟩ := runSessions_refine env drive hnf hnd ks fuel q tc d core msg hinv hs
  have h := processQueue_done_unique env drive h3 hu
  exact ⟨congrArg Prod.fst h, congrArg Prod.snd h⟩

theorem copy_resume_reaches_same_terminal_witness :
    exCore = exCore ∧ "Done. (3 files processed)" = "Done. (3 files processed)" :=
  copy_resume_reaches_same_terminal Env.ok exDrive (fun _ => rfl) (fun _ => rfl)
    [1, 100] 20 20 [rootTask 0] 0 dest0 exCore exCore "Done. (3 files processed)"
    "Done. (3 files processed)" rfl rfl rfl

/-- C3: on the spec's example tree the walker processes the head task's
files first, then discovers and appends its subfolders, then dequeues it
and moves to the next task: root files, root subfolder discovery, sub1
files, sub1 subfolders, sub2 files, sub2 subfolders, in that order. -/
theorem copy_trace_example_order :
    ((processQueue Env.ok exDrive 20 [rootTask 0] none 0 dest0).evsOf).filter orderEv =
      [.fileItem 0 "a.txt", .stageDone 0,
       .subItem 0 1 "sub1", .enqueued 1 1, .subItem 0 2 "sub2", .enqueued 2 2,
       .dequeued 0,
       .fileItem 1 "b.txt", .stageDone 1, .dequeued 1,
       .fileItem 2 "c.txt", .stageDone 2, .dequeued 2] := rfl

/-- C4 counterexample: with the budget already expired, a run over an
empty folder still crosses its FILES-to-FOLDERS stage boundary and its
task-dequeue boundary and completes without ever performing a time
check: the guard is per-item only, never at stage boundaries. -/
theorem budget_no_check_at_stage_boundaries :
    budgetExpired (some 0) = true ∧
    (processQueue Env.ok emptyDrive 5 [rootTask 0] (some 0) 0 dest0).isDone = true ∧
    ((processQueue Env.ok emptyDrive 5 [rootTask 0] (some 0) 0
        dest0).evsOf).countP isTimeCheckEv = 0 ∧
    ((processQueue Env.ok emptyDrive 5 [rootTask 0] (some 0) 0
        dest0).evsOf).countP isStageDoneEv = 1 ∧
    ((processQueue Env.ok emptyDrive 5 [rootTask 0] (some 0) 0
        dest0).evsOf).countP isDequeuedEv = 1 :=
  ⟨rfl, rfl, rfl, rfl, rfl⟩

/-- C4 (amended): the budget is checked before each file and before each
subfolder, not at stage boundaries; whenever an execution suspends, its
trace ends with the firing check followed immediately by saving exactly
the persisted queue and counter, scheduling the resume and writing the
Pausing status — nothing is processed after the guard fires — and the
head of the saved queue carries the captured continuation cursor. -/
theorem budget_guard_suspension_shape (env : Env) (drive : SrcDrive) (fuel : Nat)
    (q : List Task) (b : Option Nat) (tc : Nat) (d : DestState) (core : CopyCore)
    (evs : List Ev)
    (h : processQueue env drive fuel q b tc d = .paused core evs) :
    (∃ pre, evs = pre ++ [.timeCheck true, .savedState core.queue core.totalCopied,
        .scheduledResume, .statusWrite (pausingMsg core.totalCopied)]) ∧
    ∃ h2 t2, core.queue = h2 :: t2 ∧
      (h2.fileToken.isSome || h2.folderToken.isSome) = true :=
  processQueue_paused_shape env drive fuel q b tc d core evs h

/-- Core persisted by the run over `exDrive` that suspends immediately. -/
def pausedCore : CopyCore := ⟨[⟨0, 0, .FILES, some ["a.txt"], none⟩], 0, dest0⟩

theorem budget_guard_suspension_shape_witness :
    (∃ pre, [Ev.timeCheck true, Ev.savedState pausedCore.queue 0, Ev.scheduledResume,
        Ev.statusWrite (pausingMsg 0)] = pre ++ [Ev.timeCheck true,
        Ev.savedState pausedCore.queue pausedCore.totalCopied, Ev.scheduledResume,
        Ev.statusWrite (pausingMsg pausedCore.totalCopied)]) ∧
    ∃ h2 t2, pausedCore.queue = h2 :: t2 ∧
      (h2.fileToken.isSome || h2.folderToken.isSome) = true :=
  budget_guard_suspension_shape Env.ok exDrive 1 [rootTask 0] (some 0) 0 dest0
    pausedCore _ rfl

/-- C5 counterexample: resuming with a stale file cursor does not restart
the stage's enumeration from the beginning — the walker logs WARN,
abandons the FILES stage, and completes with the remaining source file
`b` never copied and no file ever processed; the destination is left
exactly as it was. -/
theorem stale_cursor_stage_abandoned :
    ∃ msg evs,
      processQueue staleEnv c5Drive 5 [⟨0, 0, .FILES, some ["b"], none⟩] none 0 c5Dest
          = .done ⟨[], 0, c5Dest⟩ msg evs ∧
      fileExists c5Dest 0 "b" = false ∧
      evs.countP isFileItemEv = 0 ∧
      evs.countP isWarnEv = 1 ∧
      "b" ∈ (⟨"root", ["a", "b"], []⟩ : SrcFolder).files :=
  ⟨"Done. (0 files processed)",
   [.log "WARN" "File Iterator" "Error getting files (skipping)", .dequeued 0,
    .removedTriggers, .statusWrite "Done. (0 files processed)", .clearedState,
    .log "INFO" "Job" "Copy Completed. Processed: 0"],
   rfl, rfl, rfl, rfl, by decide⟩

/-- C5 (amended): on a stale file cursor the walker does not crash and
previously-copied files stay untouched, but it does not restart the
stage's enumeration: it logs WARN and abandons the FILES stage outright,
advancing the head task to its FOLDERS stage with the remaining files
skipped. -/
theorem stale_cursor_recovery_behavior (env : Env) (drive : SrcDrive) (fuel : Nat)
    (t : Task) (tail : List Task) (b : Option Nat) (tc : Nat) (d : DestState)
    (sf : SrcFolder) (df : DestFolder) (r : List String)
    (hs : lookupSrc drive t.sourceId = some sf)
    (hd : lookupDest d t.destId = some df)
    (hst : t.stage = .FILES)
    (htok : t.fileToken = some r)
    (hstale : env.fileCursorStale t.sourceId = true) :
    processQueue env drive (fuel + 1) (t :: tail) b tc d =
      (processQueue env drive fuel
          ({t with stage := .FOLDERS, fileToken := none} :: tail) b tc d).withEvs
        [.log "WARN" "File Iterator" "Error getting files (skipping)"] :=
  processQueue_files_nolist env drive fuel t tail b tc d sf df hs hd hst
    (by simp only [fileListing, htok, hstale, if_true])

theorem stale_cursor_recovery_behavior_witness :
    processQueue staleEnv c5Drive 5 [⟨0, 0, .FILES, some ["b"], none⟩] none 0 c5Dest =
      (processQueue staleEnv c5Drive 4 [⟨0, 0, .FOLDERS, none, none⟩] none 0
          c5Dest).withEvs
        [.log "WARN" "File Iterator" "Error getting files (skipping)"] :=
  stale_cursor_recovery_behavior staleEnv c5Drive 4 ⟨0, 0, .FILES, some ["b"], none⟩ []
    none 0 c5Dest ⟨"root", ["a", "b"], []⟩ ⟨["a"], []⟩ ["b"] rfl rfl rfl rfl rfl

/-- C6: an enumeration failure (the listing call throws or the cursor is
stale, so the stage's iterator cannot be obtained) is logged WARN and the
stage is abandoned early without in-place retry: a FILES-stage failure
advances the head task straight to its FOLDERS stage, a FOLDERS-stage
failure dequeues the task, and the run continues either way. -/
theorem listing_failure_abandons_stage (env : Env) (drive : SrcDrive) (fuel : Nat)
    (t : Task) (tail : List Task) (b : Option Nat) (tc : Nat) (d : DestState)
    (sf : SrcFolder) (df : DestFolder)
    (hs : lookupSrc drive t.sourceId = some sf)
    (hd : lookupDest d t.destId = some df) :
    (t.stage = .FILES → fileListing env sf t = none →
      processQueue env drive (fuel + 1) (t :: tail) b tc d =
        (processQueue env drive fuel
            ({t with stage := .FOLDERS, fileToken := none} :: tail) b tc d).withEvs
          [.log "WARN" "File Iterator" "Error getting files (skipping)"]) ∧
    (t.stage = .FOLDERS → folderListing env sf t = none →
      processQueue env drive (fuel + 1) (t :: tail) b tc d =
        (processQueue env drive fuel tail b tc d).withEvs
          [.log "WARN" "Folder Iterator" "Error getting folders (skipping)",
           .dequeued t.sourceId]) :=
  ⟨fun hst hfl =>
      processQueue_files_nolist env drive fuel t tail b tc d sf df hs hd hst hfl,
   fun hst hfl =>
      processQueue_folders_nolist env drive fuel t tail b tc d sf df hs hd hst hfl⟩

theorem listing_failure_abandons_stage_witness :
    (processQueue failFilesEnv c5Drive 5 [⟨0, 0, .FILES, none, none⟩] none 0 c5Dest =
        (processQueue failFilesEnv c5Drive 4 [⟨0, 0, .FOLDERS, none, none⟩] none 0
            c5Dest).withEvs
          [.log "WARN" "File Iterator" "Error getting files (skipping)"]) ∧
    (processQueue failFoldersEnv c5Drive 5 [⟨0, 0, .FOLDERS, none, none⟩] none 0
          c5Dest =
        (processQueue failFoldersEnv c5Drive 4 [] none 0 c5Dest).withEvs
          [.log "WARN" "Folder Iterator" "Error getting folders (skipping)",
           .dequeued 0]) :=
  ⟨(listing_failure_abandons_stage failFilesEnv c5Drive 4 ⟨0, 0, .FILES, none, none⟩
      [] none 0 c5Dest ⟨"root", ["a", "b"], []⟩ ⟨["a"], []⟩ rfl rfl).1 rfl rfl,
   (listing_failure_abandons_stage failFoldersEnv c5Drive 4
      ⟨0, 0, .FOLDERS, none, none⟩ [] none 0 c5Dest ⟨"root", ["a", "b"], []⟩
      ⟨["a"], []⟩ rfl rfl).2 rfl rfl⟩

/-- C7: a task's destination folder exists before the task does — at job
setup the single initial task points at the freshly created root copy,
and every walker step preserves the invariant that all queued tasks'
destination ids resolve in the current destination state. -/
theorem queue_dest_exists_invariant (env : Env) (drive : SrcDrive) (sid : Nat)
    (dest : DestState) (q0 : List Task) (d0 : DestState)
    (hsetup : setupJob drive sid dest = some (q0, d0)) :
    (∀ t ∈ q0, (lookupDest d0 t.destId).isSome = true) ∧
    ∀ fuel q b tc d, destInv d = true →
      (∀ t ∈ q, (lookupDest d t.destId).isSome = true) →
      ∀ core, (processQueue env drive fuel q b tc d).core? = some core →
        ∀ t ∈ core.queue, (lookupDest core.dest t.destId).isSome = true := by
  constructor
  · rw [setupJob] at hsetup
    rcases hs : lookupSrc drive sid with _ | sf
    · rw [hs] at hsetup
      exact absurd hsetup (by simp)
    · rw [hs] at hsetup
      have h2 : some ([(⟨sid, dest.nextId, .FILES, none, none⟩ : Task)],
          (⟨(dest.nextId, ⟨[], []⟩) :: dest.folders, dest.nextId + 1⟩ : DestState)) =
            some (q0, d0) := hsetup
      rcases h2 with ⟨⟩
      intro t ht
      rw [List.mem_singleton] at ht
      subst ht
      simp [lookupDest]
  · intro fuel q b tc d hv hq core h
    exact processQueue_queueOk env drive fuel q b tc d hv hq core h

theorem queue_dest_exists_invariant_witness :
    (∀ t ∈ [rootTask 0], (lookupDest dest0 t.destId).isSome = true) ∧
    ∀ fuel q b tc d, destInv d = true →
      (∀ t ∈ q, (lookupDest d t.destId).isSome = true) →
      ∀ core, (processQueue Env.ok exDrive fuel q b tc d).core? = some core →
        ∀ t ∈ core.queue, (lookupDest core.dest t.destId).isSome = true :=
  queue_dest_exists_invariant Env.ok exDrive 0 ⟨[], 0⟩ [rootTask 0] dest0 rfl

/-- C8: a per-file failure during the FILES stage is logged as an ERROR
row, the file is skipped (the destination is unchanged), the processed
counter is still incremented for it, and the loop continues with the
next file — the job is not aborted. -/
theorem file_failure_skipped_counted (env : Env) (did : Nat) (n : String)
    (rest : List String) (b : Option Nat) (copied : Nat) (dest : DestState)
    (hb : budgetExpired b = false)
    (hfail : env.fileOpFail did n = true) :
    copyFilesStage env did (n :: rest) b copied dest =
      FilesRes.withEvsP [.timeCheck false, .fileItem did n, .log "ERROR" n "copy failed"]
        (copyFilesStage env did rest (budgetTick b) (copied + 1) dest) := by
  simp only [copyFilesStage, hb, hfail, Bool.false_eq_true, if_false, if_true]

theorem file_failure_skipped_counted_witness :
    copyFilesStage failOpEnv 0 ["a"] none 0 c5Dest =
      FilesRes.withEvsP [.timeCheck false, .fileItem 0 "a", .log "ERROR" "a" "copy failed"]
        (copyFilesStage failOpEnv 0 [] none 1 c5Dest) :=
  file_failure_skipped_counted failOpEnv 0 "a" [] none 0 c5Dest rfl rfl

/-- C9 counterexample: the Verify walker's terminal string says
`files checked`, not `checked`: on a one-file perfect match it writes
`Done. 1 files checked. Perfect Match.` where the spec's status-key
wording promises `Done. 1 checked. Perfect Match.`. -/
theorem verify_done_message_cex :
    ∃ evs,
      processVerifyQueue Env.ok vDrive 0 0 5 [rootTask 0] none 0 0 vDest =
        .done ⟨[], 1, 0⟩ (verifyDoneMsg 1 0) evs ∧
      verifyDoneMsg 1 0 ≠ verifyDoneMsgSpec 1 0 :=
  ⟨[.timeCheck false, .fileItem 0 "a", .stageDone 0, .dequeued 0,
    .removedTriggers, .clearedState, .statusWrite (verifyDoneMsg 1 0)],
   rfl, by decide⟩

/-- C9 (amended): when the Verify walker completes (queue empty) it
writes `Done. <n> files checked.` followed by ` <m> ISSUES (See Logs)`
when the mismatch counter is positive and by ` Perfect Match.` when it is
zero, with `<n>` the checked counter and `<m>` the mismatch counter. -/
theorem verify_done_message_format (env : Env) (drive : SrcDrive) (c0 m0 fuel : Nat)
    (q : List Task) (b : Option Nat) (checked mismatches : Nat) (dest : DestState)
    (core : VerifyCore) (msg : String) (evs : List Ev)
    (h : processVerifyQueue env drive c0 m0 fuel q b checked mismatches dest =
      .done core msg evs) :
    msg = verifyDoneMsg core.checked core.mismatches ∧ core.queue = [] :=
  processVerifyQueue_done_msg env drive c0 m0 fuel q b checked mismatches dest
    core msg evs h

theorem verify_done_message_format_witness :
    verifyDoneMsg 1 0 = verifyDoneMsg 1 0 ∧ ([] : List Task) = [] :=
  verify_done_message_format Env.ok vDrive 0 0 5 [rootTask 0] none 0 0 vDest
    ⟨[], 1, 0⟩ (verifyDoneMsg 1 0) _ rfl

/-- C10: in both walkers, failing to open the head task's source or
destination folder drops the whole task, and with it the whole subtree:
an ERROR row is logged, the task is dequeued, and the run continues with
the next task rather than failing. -/
theorem access_failure_drops_task (env : Env) (drive : SrcDrive) (fuel : Nat)
    (t : Task) (tail : List Task) (b : Option Nat)
    (tc c0 m0 checked mismatches : Nat) (d : DestState)
    (h : lookupSrc drive t.sourceId = none ∨ lookupDest d t.destId = none) :
    processQueue env drive (fuel + 1) (t :: tail) b tc d =
      (processQueue env drive fuel tail b tc d).withEvs
        [.log "ERROR" "Access" ("Cannot access folder: " ++ toString t.sourceId),
         .dequeued t.sourceId] ∧
    processVerifyQueue env drive c0 m0 (fuel + 1) (t :: tail) b checked mismatches d =
      (processVerifyQueue env drive c0 m0 fuel tail b checked mismatches d).withEvs
        [.log "ERROR" "Access-Verify" ("Cannot access folder: " ++ toString t.sourceId),
         .dequeued t.sourceId] :=
  ⟨processQueue_access env drive fuel t tail b tc d h,
   processVerifyQueue_access env drive c0 m0 fuel t tail b checked mismatches d h⟩

theorem access_failure_drops_task_witness :
    (processQueue Env.ok exDrive 4 [rootTask 5] none 0 dest0 =
      (processQueue Env.ok exDrive 3 [] none 0 dest0).withEvs
        [.log "ERROR" "Access" ("Cannot access folder: " ++ toString (5 : Nat)),
         .dequeued 5]) ∧
    (processVerifyQueue Env.ok exDrive 0 0 4 [rootTask 5] none 0 0 dest0 =
      (processVerifyQueue Env.ok exDrive 0 0 3 [] none 0 0 dest0).withEvs
        [.log "ERROR" "Access-Verify" ("Cannot access folder: " ++ toString (5 : Nat)),
         .dequeued 5]) :=
  access_failure_drops_task Env.ok exDrive 3 (rootTask 5) [] none 0 0 0 0 0 dest0
    (Or.inl rfl)

end DriveDup
